/-
  Verification of the sandboxed execution / step-orchestration engine of the
  excel-agent repository, against its natural-language specification.

  The embedding follows the Python source:
  - `my_agent/helpers/dokploy_client.py` (remote container executor:
    `_parse_logs`, `_monitor_deployment`, `execute_code`),
  - `my_agent/helpers/sandbox_server.py` (local interpreter service:
    the `/execute` handler),
  - `my_agent/nodes/dispatcher.py` (`task_dispatcher_node`),
  - `my_agent/nodes/coding_agent.py` (`should_continue_coding`,
    `tool_execution_node`'s `complete_step` branch, `finalize_analysis_node`).

  Python values flowing through `json.dumps` / `json.loads` are modelled by
  `PyVal`; the entrypoint's result object holds only booleans, strings, null
  and lists, so the model covers the JSON grammar without numeric literals
  (a blob whose delimited payload contains a bare numeric literal is outside
  the model; no value produced by the entrypoint contains one).
-/
import Mathlib

namespace ExcelAgent

/-! ## Python JSON values (the fragment the entrypoint emits) -/

/-- A Python value as produced by `json.loads` / consumed by `json.dumps`,
restricted to the constructors that can occur in the entrypoint's result
object `{success, output, error, plots}`: `None`, booleans, strings, lists
and (insertion-ordered) dicts. Numeric literals do not occur there and are
not modelled. -/
inductive PyVal where
  | none
  | bool (b : Bool)
  | str (s : String)
  | arr (items : List PyVal)
  | obj (pairs : List (String × PyVal))
deriving Repr

mutual
/-- Structural equality test for `PyVal` (decidability support). -/
def PyVal.beq : PyVal → PyVal → Bool
  | .none, .none => true
  | .bool a, .bool b => a == b
  | .str a, .str b => a == b
  | .arr xs, .arr ys => beqItems xs ys
  | .obj xs, .obj ys => beqPairs xs ys
  | _, _ => false
/-- Equality test on item lists. -/
def beqItems : List PyVal → List PyVal → Bool
  | [], [] => true
  | x :: xs, y :: ys => PyVal.beq x y && beqItems xs ys
  | _, _ => false
/-- Equality test on key/value pair lists. -/
def beqPairs : List (String × PyVal) → List (String × PyVal) → Bool
  | [], [] => true
  | (k, v) :: xs, (l, w) :: ys => k == l && PyVal.beq v w && beqPairs xs ys
  | _, _ => false
end

mutual
theorem PyVal.beq_iff : ∀ a b : PyVal, PyVal.beq a b = true ↔ a = b
  | .none, b => by cases b <;> simp [PyVal.beq]
  | .bool x, b => by cases b <;> simp [PyVal.beq]
  | .str x, b => by cases b <;> simp [PyVal.beq]
  | .arr xs, b => by
    cases b <;> simp [PyVal.beq]
    exact beqItems_iff xs _
  | .obj xs, b => by
    cases b <;> simp [PyVal.beq]
    exact beqPairs_iff xs _
theorem beqItems_iff : ∀ xs ys : List PyVal, beqItems xs ys = true ↔ xs = ys
  | [], ys => by cases ys <;> simp [beqItems]
  | x :: xs, ys => by
    cases ys with
    | nil => simp [beqItems]
    | cons y ys => simp [beqItems, PyVal.beq_iff x y, beqItems_iff xs ys]
theorem beqPairs_iff : ∀ xs ys : List (String × PyVal), beqPairs xs ys = true ↔ xs = ys
  | [], ys => by cases ys <;> simp [beqPairs]
  | (k, v) :: xs, ys => by
    cases ys with
    | nil => simp [beqPairs]
    | cons y ys =>
      obtain ⟨l, w⟩ := y
      simp [beqPairs, PyVal.beq_iff v w, beqPairs_iff xs ys, and_assoc]
end

instance : DecidableEq PyVal := fun a b =>
  decidable_of_iff (PyVal.beq a b = true) (PyVal.beq_iff a b)

/-! ## `json.dumps` (default arguments: `ensure_ascii=True`,
separators `", "` and `": "`, insertion key order) -/

/-- Lower-case hex digit, as `'%04x'` formatting uses. -/
def hexDig (k : Nat) : Char :=
  if k < 10 then Char.ofNat ('0'.toNat + k) else Char.ofNat ('a'.toNat + (k - 10))

/-- The four hex digits of `n < 0x10000`, most significant first. -/
def hex4 (n : Nat) : List Char :=
  [hexDig (n / 4096 % 16), hexDig (n / 256 % 16), hexDig (n / 16 % 16), hexDig (n % 16)]

/-- `json.dumps` escaping of one character with `ensure_ascii=True`: the named
short escapes, `\u00XX` for other control characters, printable ASCII verbatim,
`\uXXXX` for other characters of the basic plane, and a surrogate pair for
characters beyond it. -/
def escChar (c : Char) : List Char :=
  if c = '"' then ['\\', '"']
  else if c = '\\' then ['\\', '\\']
  else if c = '\n' then ['\\', 'n']
  else if c = '\r' then ['\\', 'r']
  else if c = '\t' then ['\\', 't']
  else if c.toNat = 8 then ['\\', 'b']
  else if c.toNat = 12 then ['\\', 'f']
  else if c.toNat < 0x20 then '\\' :: 'u' :: hex4 c.toNat
  else if c.toNat ≤ 0x7e then [c]
  else if c.toNat < 0x10000 then '\\' :: 'u' :: hex4 c.toNat
  else
    '\\' :: 'u' :: hex4 (0xd800 + (c.toNat - 0x10000) / 0x400)
      ++ '\\' :: 'u' :: hex4 (0xdc00 + (c.toNat - 0x10000) % 0x400)

/-- A dumped string literal: quote, escaped characters, quote. -/
def dumpStr (s : String) : List Char :=
  '"' :: ((s.data.map escChar).flatten ++ ['"'])

mutual
/-- `json.dumps` of a `PyVal` (character list). -/
def dumpVal : PyVal → List Char
  | .none => "null".data
  | .bool true => "true".data
  | .bool false => "false".data
  | .str s => dumpStr s
  | .arr vs => '[' :: (dumpItems vs ++ [']'])
  | .obj ps => '{' :: (dumpPairs ps ++ ['}'])
/-- List items joined by `", "`. -/
def dumpItems : List PyVal → List Char
  | [] => []
  | [v] => dumpVal v
  | v :: vs => dumpVal v ++ ',' :: ' ' :: dumpItems vs
/-- Dict entries `"key": value` joined by `", "`. -/
def dumpPairs : List (String × PyVal) → List Char
  | [] => []
  | [(k, v)] => dumpStr k ++ ':' :: ' ' :: dumpVal v
  | (k, v) :: ps => dumpStr k ++ ':' :: ' ' :: dumpVal v ++ ',' :: ' ' :: dumpPairs ps
end

/-! ## `json.loads` -/

/-- JSON whitespace, as in the decoder's `WHITESPACE` class. -/
def jsonWs (c : Char) : Bool :=
  c = ' ' || c = '\t' || c = '\n' || c = '\r'

/-- Drop leading JSON whitespace. -/
def skipWs : List Char → List Char
  | c :: cs => if jsonWs c then skipWs cs else c :: cs
  | [] => []

/-- Hex digit value (both cases accepted, as `int(esc, 16)` is). -/
def hexVal (c : Char) : Option Nat :=
  if '0' ≤ c ∧ c ≤ '9' then some (c.toNat - '0'.toNat)
  else if 'a' ≤ c ∧ c ≤ 'f' then some (c.toNat - 'a'.toNat + 10)
  else if 'A' ≤ c ∧ c ≤ 'F' then some (c.toNat - 'A'.toNat + 10)
  else Option.none

/-- Value of a four-hex-digit escape. -/
def hex4Val (a b c d : Char) : Option Nat := do
  let x ← hexVal a
  let y ← hexVal b
  let z ← hexVal c
  let w ← hexVal d
  pure (((x * 16 + y) * 16 + z) * 16 + w)

/-- The single-character escapes of the decoder's `BACKSLASH` table. -/
def unEsc (c : Char) : Option Char :=
  if c = '"' then some '"'
  else if c = '\\' then some '\\'
  else if c = '/' then some '/'
  else if c = 'n' then some '\n'
  else if c = 'r' then some '\r'
  else if c = 't' then some '\t'
  else if c = 'b' then some (Char.ofNat 8)
  else if c = 'f' then some (Char.ofNat 12)
  else Option.none

/-- Combine a decoded high surrogate `n` with a following `\uXXXX` low
surrogate, as the decoder does for characters beyond the basic plane. -/
def pairLowSur (n : Nat) : List Char → Option (Char × List Char)
  | b1 :: b2 :: g1 :: g2 :: g3 :: g4 :: rest =>
    if b1 = '\\' ∧ b2 = 'u' then
      match hex4Val g1 g2 g3 g4 with
      | some m =>
        if 0xdc00 ≤ m ∧ m < 0xe000 then
          some (Char.ofNat (0x10000 + (n - 0xd800) * 0x400 + (m - 0xdc00)), rest)
        else Option.none
      | Option.none => Option.none
    else Option.none
  | _ => Option.none

/-- Decode a `\uXXXX` escape (after the `u`); a high surrogate requires a
paired low surrogate right after it. -/
def decodeU : List Char → Option (Char × List Char)
  | h1 :: h2 :: h3 :: h4 :: rest =>
    match hex4Val h1 h2 h3 h4 with
    | some n =>
      if 0xd800 ≤ n ∧ n < 0xdc00 then pairLowSur n rest
      else if 0xdc00 ≤ n ∧ n < 0xe000 then Option.none
      else some (Char.ofNat n, rest)
    | Option.none => Option.none
  | _ => Option.none

/-- Decode one escape sequence (the part after the backslash): the decoded
character and the remaining input. -/
def decodeEsc : List Char → Option (Char × List Char)
  | [] => Option.none
  | e :: rest =>
    if e = 'u' then decodeU rest
    else
      match unEsc e with
      | some ch => some (ch, rest)
      | Option.none => Option.none

theorem pairLowSur_lt {n : Nat} {cs r : List Char} {ch : Char}
    (h : pairLowSur n cs = some (ch, r)) : r.length < cs.length := by
  match cs with
  | b1 :: b2 :: g1 :: g2 :: g3 :: g4 :: rest =>
    rw [pairLowSur] at h
    split at h
    · split at h
      · split at h
        · simp at h
          obtain ⟨-, rfl⟩ := h
          simp
          omega
        · exact absurd h (by simp)
      · exact absurd h (by simp)
    · exact absurd h (by simp)

theorem decodeU_lt {cs r : List Char} {ch : Char}
    (h : decodeU cs = some (ch, r)) : r.length < cs.length := by
  match cs with
  | h1 :: h2 :: h3 :: h4 :: rest =>
    rw [decodeU] at h
    split at h
    · split at h
      · have := pairLowSur_lt h
        simp at this ⊢
        omega
      · split at h
        · exact absurd h (by simp)
        · simp at h
          obtain ⟨-, rfl⟩ := h
          simp
          omega
    · exact absurd h (by simp)

theorem decodeEsc_lt {cs r : List Char} {ch : Char}
    (h : decodeEsc cs = some (ch, r)) : r.length < cs.length := by
  match cs with
  | [] => rw [decodeEsc] at h; exact absurd h (by simp)
  | e :: rest =>
    rw [decodeEsc] at h
    split at h
    · have := decodeU_lt h
      simp
      omega
    · split at h
      · simp at h
        obtain ⟨-, rfl⟩ := h
        simp
      · exact absurd h (by simp)

/-- The fuel-bounded scanning loop of `py_scanstring` (after the opening
quote). Strict mode: bare control characters are rejected. `\uXXXX` escapes
are decoded, with high/low surrogate pairs combined into one character; a
lone surrogate — which CPython would keep as an unpaired surrogate code
point, something a Lean `Char` cannot carry — is mapped to failure (no output
of `dumpVal` contains one). Every step consumes at least one input character,
so fuel `cs.length + 1` always suffices. -/
def scanStrGo : Nat → List Char → List Char → Option (String × List Char)
  | 0, _, _ => Option.none
  | fuel + 1, acc, cs =>
    match cs with
    | [] => Option.none
    | c :: rest =>
      if c = '"' then some (⟨acc.reverse⟩, rest)
      else if c = '\\' then
        match decodeEsc rest with
        | some (ch, rest1) => scanStrGo fuel (ch :: acc) rest1
        | Option.none => Option.none
      else if c.toNat < 0x20 then Option.none
      else scanStrGo fuel (c :: acc) rest

/-- `py_scanstring` after the opening quote. -/
def scanStr (acc : List Char) (cs : List Char) : Option (String × List Char) :=
  scanStrGo (cs.length + 1) acc cs

/-- Consume an expected literal keyword tail (the decoder's
`s[idx:idx + n] == kw` comparisons). -/
def afterLit (pat cs : List Char) : Option (List Char) :=
  if pat.isPrefixOf cs then some (cs.drop pat.length) else Option.none

mutual
/-- One JSON value (the number-free fragment), fuel-bounded. -/
def jsonVal : Nat → List Char → Option (PyVal × List Char)
  | 0, _ => Option.none
  | fuel + 1, cs =>
    match skipWs cs with
    | [] => Option.none
    | c :: r =>
      if c = 'n' then
        match afterLit ['u', 'l', 'l'] r with
        | some r1 => some (.none, r1)
        | Option.none => Option.none
      else if c = 't' then
        match afterLit ['r', 'u', 'e'] r with
        | some r1 => some (.bool true, r1)
        | Option.none => Option.none
      else if c = 'f' then
        match afterLit ['a', 'l', 's', 'e'] r with
        | some r1 => some (.bool false, r1)
        | Option.none => Option.none
      else if c = '"' then
        match scanStr [] r with
        | some (s, r1) => some (.str s, r1)
        | Option.none => Option.none
      else if c = '[' then
        match skipWs r with
        | [] => Option.none
        | c1 :: r1 =>
          if c1 = ']' then some (.arr [], r1)
          else
            match jsonItems fuel (c1 :: r1) with
            | some (vs, r2) => some (.arr vs, r2)
            | Option.none => Option.none
      else if c = '{' then
        match skipWs r with
        | [] => Option.none
        | c1 :: r1 =>
          if c1 = '}' then some (.obj [], r1)
          else
            match jsonPairs fuel (c1 :: r1) with
            | some (ps, r2) => some (.obj ps, r2)
            | Option.none => Option.none
      else Option.none
/-- One or more comma-separated array items up to the closing bracket. -/
def jsonItems : Nat → List Char → Option (List PyVal × List Char)
  | 0, _ => Option.none
  | fuel + 1, cs =>
    match jsonVal fuel cs with
    | Option.none => Option.none
    | some (v, r) =>
      match skipWs r with
      | [] => Option.none
      | c :: r1 =>
        if c = ',' then
          match jsonItems fuel r1 with
          | some (vs, r2) => some (v :: vs, r2)
          | Option.none => Option.none
        else if c = ']' then some ([v], r1)
        else Option.none
/-- One or more `"key": value` members up to the closing brace. -/
def jsonPairs : Nat → List Char → Option (List (String × PyVal) × List Char)
  | 0, _ => Option.none
  | fuel + 1, cs =>
    match skipWs cs with
    | [] => Option.none
    | c :: r =>
      if c = '"' then
        match scanStr [] r with
        | Option.none => Option.none
        | some (k, r1) =>
          match skipWs r1 with
          | [] => Option.none
          | c1 :: r2 =>
            if c1 = ':' then
              match jsonVal fuel r2 with
              | Option.none => Option.none
              | some (v, r3) =>
                match skipWs r3 with
                | [] => Option.none
                | c2 :: r4 =>
                  if c2 = ',' then
                    match jsonPairs fuel r4 with
                    | some (ps, r5) => some ((k, v) :: ps, r5)
                    | Option.none => Option.none
                  else if c2 = '}' then some ([(k, v)], r4)
                  else Option.none
            else Option.none
      else Option.none
end

/-- `json.loads`: one value, with only whitespace allowed around it. -/
def pyLoads (cs : List Char) : Option PyVal :=
  match jsonVal (cs.length + 1) cs with
  | some (v, r) => if skipWs r = [] then some v else Option.none
  | Option.none => Option.none

/-! ## Round trip of the codec: `pyLoads (dumpVal v) = some v` -/

theorem char_valid_range (c : Char) :
    c.toNat < 0xd800 ∨ (0xdfff < c.toNat ∧ c.toNat < 0x110000) := c.valid

theorem hexVal_hexDig {k : Nat} (h : k < 16) : hexVal (hexDig k) = some k := by
  interval_cases k <;> decide

theorem hex4Val_hex4 {n : Nat} (h : n < 0x10000) :
    hex4Val (hexDig (n / 4096 % 16)) (hexDig (n / 256 % 16))
      (hexDig (n / 16 % 16)) (hexDig (n % 16)) = some n := by
  rw [hex4Val]
  rw [hexVal_hexDig (Nat.mod_lt _ (by omega)), hexVal_hexDig (Nat.mod_lt _ (by omega)),
    hexVal_hexDig (Nat.mod_lt _ (by omega)), hexVal_hexDig (Nat.mod_lt _ (by omega))]
  show some _ = some n
  congr 1
  omega

theorem scanStrGo_quote (f : Nat) (acc rest : List Char) :
    scanStrGo (f + 1) acc ('"' :: rest) = some (⟨acc.reverse⟩, rest) := by
  rw [scanStrGo]
  simp

theorem scanStrGo_esc {rest rest1 : List Char} {ch : Char} (f : Nat) (acc : List Char)
    (h : decodeEsc rest = some (ch, rest1)) :
    scanStrGo (f + 1) acc ('\\' :: rest) = scanStrGo f (ch :: acc) rest1 := by
  rw [scanStrGo]
  simp [h]

theorem scanStrGo_other {c : Char} (f : Nat) (acc rest : List Char) (h1 : c ≠ '"')
    (h2 : c ≠ '\\') (h3 : ¬c.toNat < 0x20) :
    scanStrGo (f + 1) acc (c :: rest) = scanStrGo f (c :: acc) rest := by
  rw [scanStrGo]
  simp [h1, h2, h3]

theorem decodeEsc_unEsc {e : Char} {ch : Char} (rest : List Char) (hu : e ≠ 'u')
    (h : unEsc e = some ch) : decodeEsc (e :: rest) = some (ch, rest) := by
  rw [decodeEsc]
  simp [hu, h]

theorem decodeEsc_u {n : Nat} (rest : List Char) (hlo : ¬(0xd800 ≤ n ∧ n < 0xdc00))
    (hhi : ¬(0xdc00 ≤ n ∧ n < 0xe000)) (hn : n < 0x10000) :
    decodeEsc ('u' :: (hex4 n ++ rest)) = some (Char.ofNat n, rest) := by
  have e1 := hex4Val_hex4 hn
  simp [decodeEsc, decodeU, hex4, e1, hlo, hhi]

theorem decodeEsc_surPair {n m : Nat} (rest : List Char)
    (hn : 0xd800 ≤ n ∧ n < 0xdc00) (hm : 0xdc00 ≤ m ∧ m < 0xe000) :
    decodeEsc ('u' :: (hex4 n ++ '\\' :: 'u' :: (hex4 m ++ rest)))
      = some (Char.ofNat (0x10000 + (n - 0xd800) * 0x400 + (m - 0xdc00)), rest) := by
  have e1 := hex4Val_hex4 (show n < 0x10000 by omega)
  have e2 := hex4Val_hex4 (show m < 0x10000 by omega)
  simp [decodeEsc, decodeU, pairLowSur, hex4, e1, e2, hn.1, hn.2, hm.1, hm.2]

/-- Undoing one escaped character: scanning `escChar c` pushes exactly `c`. -/
theorem scanStrGo_escChar (c : Char) (f : Nat) (acc rest : List Char) :
    scanStrGo (f + 1) acc (escChar c ++ rest) = scanStrGo f (c :: acc) rest := by
  by_cases h1 : c = '"'
  · subst h1
    exact scanStrGo_esc f acc (decodeEsc_unEsc rest (by decide) (by decide))
  by_cases h2 : c = '\\'
  · subst h2
    exact scanStrGo_esc f acc (decodeEsc_unEsc rest (by decide) (by decide))
  by_cases h3 : c = '\n'
  · subst h3
    exact scanStrGo_esc f acc (decodeEsc_unEsc rest (by decide) (by decide))
  by_cases h4 : c = '\r'
  · subst h4
    exact scanStrGo_esc f acc (decodeEsc_unEsc rest (by decide) (by decide))
  by_cases h5 : c = '\t'
  · subst h5
    exact scanStrGo_esc f acc (decodeEsc_unEsc rest (by decide) (by decide))
  by_cases h6 : c.toNat = 8
  · have hc : c = Char.ofNat 8 := by rw [← h6, Char.ofNat_toNat]
    subst hc
    exact scanStrGo_esc f acc (decodeEsc_unEsc rest (by decide) (by decide))
  by_cases h7 : c.toNat = 12
  · have hc : c = Char.ofNat 12 := by rw [← h7, Char.ofNat_toNat]
    subst hc
    exact scanStrGo_esc f acc (decodeEsc_unEsc rest (by decide) (by decide))
  by_cases h8 : c.toNat < 0x20
  · rw [show escChar c = '\\' :: 'u' :: hex4 c.toNat by
      simp [escChar, h1, h2, h3, h4, h5, h6, h7, h8]]
    show scanStrGo (f + 1) acc ('\\' :: ('u' :: (hex4 c.toNat ++ rest))) = _
    rw [scanStrGo_esc f acc (decodeEsc_u rest (by omega) (by omega) (by omega)),
      Char.ofNat_toNat]
  by_cases h9 : c.toNat ≤ 0x7e
  · rw [show escChar c = [c] by simp [escChar, h1, h2, h3, h4, h5, h6, h7, h8, h9]]
    show scanStrGo (f + 1) acc (c :: rest) = _
    rw [scanStrGo_other f acc rest h1 h2 h8]
  by_cases h10 : c.toNat < 0x10000
  · have hval := char_valid_range c
    rw [show escChar c = '\\' :: 'u' :: hex4 c.toNat by
      simp [escChar, h1, h2, h3, h4, h5, h6, h7, h8, h9, h10]]
    show scanStrGo (f + 1) acc ('\\' :: ('u' :: (hex4 c.toNat ++ rest))) = _
    rw [scanStrGo_esc f acc (decodeEsc_u rest (by omega) (by omega) (by omega)),
      Char.ofNat_toNat]
  · have hval := char_valid_range c
    rw [show escChar c = '\\' :: 'u' :: (hex4 (0xd800 + (c.toNat - 0x10000) / 0x400)
        ++ '\\' :: 'u' :: hex4 (0xdc00 + (c.toNat - 0x10000) % 0x400)) by
      simp [escChar, h1, h2, h3, h4, h5, h6, h7, h8, h9, h10]]
    show scanStrGo (f + 1) acc ('\\' :: ('u' :: (hex4 (0xd800 + (c.toNat - 0x10000) / 0x400)
      ++ '\\' :: 'u' :: (hex4 (0xdc00 + (c.toNat - 0x10000) % 0x400) ++ rest)))) = _
    rw [scanStrGo_esc f acc (decodeEsc_surPair rest (by omega) (by omega))]
    have harith : 0x10000 + (0xd800 + (c.toNat - 0x10000) / 0x400 - 0xd800) * 0x400
        + (0xdc00 + (c.toNat - 0x10000) % 0x400 - 0xdc00) = c.toNat := by omega
    rw [harith, Char.ofNat_toNat]

/-- Scanning an escaped character run stops at the closing quote and returns
the original characters (given fuel for one step per source character plus
the closing quote). -/
theorem scanStrGo_escRun (cs : List Char) : ∀ (f : Nat) (acc rest : List Char),
    cs.length < f →
    scanStrGo f acc ((cs.map escChar).flatten ++ '"' :: rest)
      = some (⟨acc.reverse ++ cs⟩, rest) := by
  induction cs with
  | nil =>
    intro f acc rest hf
    obtain ⟨g, rfl⟩ : ∃ g, f = g + 1 := ⟨f - 1, by omega⟩
    rw [List.map_nil, List.flatten_nil, List.nil_append, scanStrGo_quote]
    rw [List.append_nil]
  | cons c cs ih =>
    intro f acc rest hf
    obtain ⟨g, rfl⟩ : ∃ g, f = g + 1 := ⟨f - 1, by omega⟩
    rw [List.map_cons, List.flatten_cons, List.append_assoc, scanStrGo_escChar,
      ih g (c :: acc) rest (by simpa using hf)]
    simp

set_option maxHeartbeats 1000000 in
/-- Each character escapes to a nonempty sequence. -/
theorem escChar_length_pos (c : Char) : 1 ≤ (escChar c).length := by
  rw [escChar]
  split_ifs <;> simp [hex4]

/-- Escaping can only lengthen the text. -/
theorem escFlat_length (cs : List Char) : cs.length ≤ ((cs.map escChar).flatten).length := by
  induction cs with
  | nil => simp
  | cons c cs ih =>
    have := escChar_length_pos c
    simp only [List.map_cons, List.flatten_cons, List.length_append, List.length_cons]
    omega

/-- The string codec round trip. -/
theorem scanStr_dumpStr (s : String) (rest : List Char) :
    scanStr [] ((s.data.map escChar).flatten ++ '"' :: rest) = some (s, rest) := by
  rw [scanStr]
  rw [scanStrGo_escRun s.data _ [] rest (by
    have := escFlat_length s.data
    simp only [List.length_append, List.length_cons]
    omega)]
  simp

mutual
/-- Fuel sufficient for `jsonVal` to parse a dumped value. -/
def needF : PyVal → Nat
  | .arr (v :: vs) => 1 + needItems (v :: vs)
  | .obj (p :: ps) => 1 + needPairs (p :: ps)
  | _ => 1
/-- Fuel sufficient for `jsonItems` on a dumped item list. -/
def needItems : List PyVal → Nat
  | [] => 1
  | [v] => 1 + needF v
  | v :: vs => 1 + needF v + needItems vs
/-- Fuel sufficient for `jsonPairs` on a dumped member list. -/
def needPairs : List (String × PyVal) → Nat
  | [] => 1
  | [(_, v)] => 1 + needF v
  | (_, v) :: ps => 1 + needF v + needPairs ps
end

theorem skipWs_cons {c : Char} (t : List Char) (h : jsonWs c = false) :
    skipWs (c :: t) = c :: t := by
  rw [skipWs, h]
  simp

theorem jsonVal_ws (g : Nat) (x : List Char) : jsonVal g (' ' :: x) = jsonVal g x := by
  cases g with
  | zero => rfl
  | succ g =>
    rw [jsonVal, jsonVal]
    rw [show skipWs (' ' :: x) = skipWs x by rw [skipWs]; simp [jsonWs]]

theorem jsonItems_ws (g : Nat) (x : List Char) : jsonItems g (' ' :: x) = jsonItems g x := by
  cases g with
  | zero => rfl
  | succ g =>
    rw [jsonItems, jsonItems, jsonVal_ws]

theorem jsonPairs_ws (g : Nat) (x : List Char) : jsonPairs g (' ' :: x) = jsonPairs g x := by
  cases g with
  | zero => rfl
  | succ g =>
    rw [jsonPairs, jsonPairs]
    rw [show skipWs (' ' :: x) = skipWs x by rw [skipWs]; simp [jsonWs]]

/-- Every dumped value begins with one of the dispatch characters, which is
neither whitespace nor a closing bracket. -/
theorem dumpVal_head (v : PyVal) : ∃ c t, dumpVal v = c :: t ∧ jsonWs c = false
    ∧ c ≠ ']' ∧ c ≠ '}' := by
  have pack : ∀ (c : Char) (t : List Char),
      jsonWs c = false → c ≠ ']' → c ≠ '}' →
      ∃ c2 t2, (c :: t : List Char) = c2 :: t2 ∧ jsonWs c2 = false
        ∧ c2 ≠ ']' ∧ c2 ≠ '}' :=
    fun c t h1 h2 h3 => ⟨c, t, rfl, h1, h2, h3⟩
  cases v with
  | none => refine pack 'n' _ ?_ ?_ ?_ <;> decide
  | bool b =>
    cases b with
    | true => refine pack 't' _ ?_ ?_ ?_ <;> decide
    | false => refine pack 'f' _ ?_ ?_ ?_ <;> decide
  | str s => refine pack '"' _ ?_ ?_ ?_ <;> decide
  | arr vs => refine pack '[' _ ?_ ?_ ?_ <;> decide
  | obj ps => refine pack '{' _ ?_ ?_ ?_ <;> decide

theorem jsonVal_null (f : Nat) (rest : List Char) :
    jsonVal (f + 1) ('n' :: 'u' :: 'l' :: 'l' :: rest) = some (.none, rest) := by
  rw [jsonVal]
  rw [skipWs_cons _ (by decide)]
  simp [afterLit, List.isPrefixOf]

theorem jsonVal_true (f : Nat) (rest : List Char) :
    jsonVal (f + 1) ('t' :: 'r' :: 'u' :: 'e' :: rest) = some (.bool true, rest) := by
  rw [jsonVal]
  rw [skipWs_cons _ (by decide)]
  simp [afterLit, List.isPrefixOf]

theorem jsonVal_false (f : Nat) (rest : List Char) :
    jsonVal (f + 1) ('f' :: 'a' :: 'l' :: 's' :: 'e' :: rest) = some (.bool false, rest) := by
  rw [jsonVal]
  rw [skipWs_cons _ (by decide)]
  simp [afterLit, List.isPrefixOf]

theorem jsonVal_str {r r1 : List Char} {s : String} (f : Nat)
    (h : scanStr [] r = some (s, r1)) :
    jsonVal (f + 1) ('"' :: r) = some (.str s, r1) := by
  rw [jsonVal]
  rw [skipWs_cons _ (by decide)]
  simp [h]

theorem jsonVal_arrNil (f : Nat) (rest : List Char) :
    jsonVal (f + 1) ('[' :: ']' :: rest) = some (.arr [], rest) := by
  rw [jsonVal]
  rw [skipWs_cons _ (by decide)]
  simp [show skipWs (']' :: rest) = ']' :: rest from skipWs_cons _ (by decide)]

theorem jsonVal_arrCons {c1 : Char} {r1 r2 : List Char} {vs : List PyVal} (f : Nat)
    (hws : jsonWs c1 = false) (hc : c1 ≠ ']')
    (h : jsonItems f (c1 :: r1) = some (vs, r2)) :
    jsonVal (f + 1) ('[' :: c1 :: r1) = some (.arr vs, r2) := by
  rw [jsonVal]
  rw [skipWs_cons _ (by decide)]
  simp [show skipWs (c1 :: r1) = c1 :: r1 from skipWs_cons _ hws, hc, h]

theorem jsonVal_objNil (f : Nat) (rest : List Char) :
    jsonVal (f + 1) ('{' :: '}' :: rest) = some (.obj [], rest) := by
  rw [jsonVal]
  rw [skipWs_cons _ (by decide)]
  simp [show skipWs ('}' :: rest) = '}' :: rest from skipWs_cons _ (by decide)]

theorem jsonVal_objCons {r1 r2 : List Char} {ps : List (String × PyVal)} (f : Nat)
    (h : jsonPairs f ('"' :: r1) = some (ps, r2)) :
    jsonVal (f + 1) ('{' :: '"' :: r1) = some (.obj ps, r2) := by
  rw [jsonVal]
  rw [skipWs_cons _ (by decide)]
  simp [show skipWs ('"' :: r1) = '"' :: r1 from skipWs_cons _ (by decide), h]

theorem needF_pos : ∀ v : PyVal, 1 ≤ needF v
  | .none => by simp [needF]
  | .bool _ => by simp [needF]
  | .str _ => by simp [needF]
  | .arr [] => by simp [needF]
  | .arr (v :: vs) => by rw [needF]; omega
  | .obj [] => by simp [needF]
  | .obj (p :: ps) => by rw [needF]; omega

/-- The head of a dumped nonempty item list is the head of its first value. -/
theorem dumpItems_cons_head {v : PyVal} {c : Char} {t : List Char} (vs : List PyVal)
    (h : dumpVal v = c :: t) : ∃ u, dumpItems (v :: vs) = c :: u := by
  cases vs with
  | nil => exact ⟨t, by rw [dumpItems, h]⟩
  | cons v2 vs =>
    refine ⟨t ++ ',' :: ' ' :: dumpItems (v2 :: vs), ?_⟩
    rw [dumpItems]
    · rw [h]
      rfl
    · simp

/-- The head of a dumped nonempty member list is the key's opening quote. -/
theorem dumpPairs_cons_head (k : String) (w : PyVal) (ps : List (String × PyVal)) :
    ∃ u, dumpPairs ((k, w) :: ps) = '"' :: u := by
  cases ps with
  | nil =>
    refine ⟨(k.data.map escChar).flatten ++ ['"'] ++ ':' :: ' ' :: dumpVal w, ?_⟩
    rw [dumpPairs, dumpStr]
    simp
  | cons p2 ps =>
    refine ⟨(k.data.map escChar).flatten ++ ['"']
      ++ ':' :: ' ' :: dumpVal w ++ ',' :: ' ' :: dumpPairs (p2 :: ps), ?_⟩
    rw [dumpPairs]
    · rw [dumpStr]
      simp
    · simp

theorem skipWs_comma (t : List Char) : skipWs (',' :: t) = ',' :: t :=
  skipWs_cons t (by decide)

theorem skipWs_colon (t : List Char) : skipWs (':' :: t) = ':' :: t :=
  skipWs_cons t (by decide)

theorem skipWs_rbracket (t : List Char) : skipWs (']' :: t) = ']' :: t :=
  skipWs_cons t (by decide)

theorem skipWs_rbrace (t : List Char) : skipWs ('}' :: t) = '}' :: t :=
  skipWs_cons t (by decide)

theorem jsonItems_last {cs rest : List Char} {v : PyVal} (f : Nat)
    (hval : jsonVal f cs = some (v, ']' :: rest)) :
    jsonItems (f + 1) cs = some ([v], rest) := by
  rw [jsonItems, hval]
  simp [skipWs_rbracket]

theorem jsonItems_entry {cs r5 r2 : List Char} {v : PyVal} {vs : List PyVal} (f : Nat)
    (hval : jsonVal f cs = some (v, ',' :: r5))
    (hrec : jsonItems f r5 = some (vs, r2)) :
    jsonItems (f + 1) cs = some (v :: vs, r2) := by
  rw [jsonItems, hval]
  simp [skipWs_comma, hrec]

theorem jsonPairs_last {r rv rest : List Char} {k : String} {w : PyVal} (f : Nat)
    (hscan : scanStr [] r = some (k, ':' :: rv))
    (hval : jsonVal f rv = some (w, '}' :: rest)) :
    jsonPairs (f + 1) ('"' :: r) = some ([(k, w)], rest) := by
  rw [jsonPairs]
  rw [skipWs_cons _ (by decide)]
  simp [hscan, skipWs_colon, hval, skipWs_rbrace]

theorem jsonPairs_entry {r rv r5 r2 : List Char} {k : String} {w : PyVal}
    {ps : List (String × PyVal)} (f : Nat)
    (hscan : scanStr [] r = some (k, ':' :: rv))
    (hval : jsonVal f rv = some (w, ',' :: r5))
    (hrec : jsonPairs f r5 = some (ps, r2)) :
    jsonPairs (f + 1) ('"' :: r) = some ((k, w) :: ps, r2) := by
  rw [jsonPairs]
  rw [skipWs_cons _ (by decide)]
  simp [hscan, skipWs_colon, hval, skipWs_comma, hrec]

mutual
/-- Parsing a dumped value (with any remainder) recovers the value. -/
theorem rtVal : ∀ (v : PyVal) (fuel : Nat) (rest : List Char), needF v ≤ fuel →
    jsonVal fuel (dumpVal v ++ rest) = some (v, rest)
  | .none, fuel, rest, hf => by
    obtain ⟨f, rfl⟩ : ∃ f, fuel = f + 1 := ⟨fuel - 1, by have := needF_pos .none; omega⟩
    rw [show dumpVal .none = ['n', 'u', 'l', 'l'] by rw [dumpVal]]
    exact jsonVal_null f rest
  | .bool true, fuel, rest, hf => by
    obtain ⟨f, rfl⟩ : ∃ f, fuel = f + 1 := ⟨fuel - 1, by have := needF_pos (.bool true); omega⟩
    rw [show dumpVal (.bool true) = ['t', 'r', 'u', 'e'] by rw [dumpVal]]
    exact jsonVal_true f rest
  | .bool false, fuel, rest, hf => by
    obtain ⟨f, rfl⟩ : ∃ f, fuel = f + 1 :=
      ⟨fuel - 1, by have := needF_pos (.bool false); omega⟩
    rw [show dumpVal (.bool false) = ['f', 'a', 'l', 's', 'e'] by rw [dumpVal]]
    exact jsonVal_false f rest
  | .str s, fuel, rest, hf => by
    obtain ⟨f, rfl⟩ : ∃ f, fuel = f + 1 := ⟨fuel - 1, by have := needF_pos (.str s); omega⟩
    rw [show dumpVal (.str s) = dumpStr s by rw [dumpVal], dumpStr]
    refine jsonVal_str f ?_
    show scanStr [] (((s.data.map escChar).flatten ++ ['"']) ++ rest) = some (s, rest)
    rw [List.append_assoc, List.singleton_append]
    exact scanStr_dumpStr s rest
  | .arr [], fuel, rest, hf => by
    obtain ⟨f, rfl⟩ : ∃ f, fuel = f + 1 := ⟨fuel - 1, by have := needF_pos (.arr []); omega⟩
    rw [show dumpVal (.arr []) = '[' :: (dumpItems [] ++ [']']) by rw [dumpVal],
      show dumpItems ([] : List PyVal) = [] by rw [dumpItems]]
    exact jsonVal_arrNil f rest
  | .arr (v :: vs), fuel, rest, hf => by
    rw [needF] at hf
    obtain ⟨f, rfl⟩ : ∃ f, fuel = f + 1 := ⟨fuel - 1, by omega⟩
    obtain ⟨c, t, hct, hws, hbr, -⟩ := dumpVal_head v
    obtain ⟨u, hu⟩ := dumpItems_cons_head vs hct
    have hitems := rtItems (v :: vs) f rest (by simp) (by omega)
    rw [hu] at hitems
    simp only [List.cons_append, List.append_assoc, List.singleton_append, List.nil_append] at hitems
    rw [show dumpVal (.arr (v :: vs)) = '[' :: (dumpItems (v :: vs) ++ [']'])
        by rw [dumpVal], hu]
    simp only [List.cons_append, List.append_assoc, List.singleton_append, List.nil_append]
    exact jsonVal_arrCons f hws hbr hitems
  | .obj [], fuel, rest, hf => by
    obtain ⟨f, rfl⟩ : ∃ f, fuel = f + 1 := ⟨fuel - 1, by have := needF_pos (.obj []); omega⟩
    rw [show dumpVal (.obj []) = '{' :: (dumpPairs [] ++ ['}']) by rw [dumpVal],
      show dumpPairs ([] : List (String × PyVal)) = [] by rw [dumpPairs]]
    exact jsonVal_objNil f rest
  | .obj ((k, w) :: ps), fuel, rest, hf => by
    rw [needF] at hf
    obtain ⟨f, rfl⟩ : ∃ f, fuel = f + 1 := ⟨fuel - 1, by omega⟩
    obtain ⟨u, hu⟩ := dumpPairs_cons_head k w ps
    have hpairs := rtPairs ((k, w) :: ps) f rest (by simp) (by omega)
    rw [hu] at hpairs
    simp only [List.cons_append, List.append_assoc, List.singleton_append, List.nil_append] at hpairs
    rw [show dumpVal (.obj ((k, w) :: ps)) = '{' :: (dumpPairs ((k, w) :: ps) ++ ['}'])
        by rw [dumpVal], hu]
    simp only [List.cons_append, List.append_assoc, List.singleton_append, List.nil_append]
    exact jsonVal_objCons f hpairs
/-- Parsing a dumped nonempty item list followed by the closing bracket. -/
theorem rtItems : ∀ (vs : List PyVal) (fuel : Nat) (rest : List Char), vs ≠ [] →
    needItems vs ≤ fuel → jsonItems fuel (dumpItems vs ++ ']' :: rest) = some (vs, rest)
  | [], _, _, hne, _ => absurd rfl hne
  | [v], fuel, rest, _, hf => by
    rw [needItems] at hf
    have hv : needF v ≤ fuel - 1 := by omega
    obtain ⟨f, rfl⟩ : ∃ f, fuel = f + 1 := ⟨fuel - 1, by omega⟩
    rw [show dumpItems [v] = dumpVal v by rw [dumpItems]]
    exact jsonItems_last f (rtVal v f (']' :: rest) (by simpa using hv))
  | v :: v2 :: vs, fuel, rest, _, hf => by
    rw [show needItems (v :: v2 :: vs) = 1 + needF v + needItems (v2 :: vs) by
      rw [needItems]
      simp] at hf
    have hv : needF v ≤ fuel - 1 := by omega
    have hvs : needItems (v2 :: vs) ≤ fuel - 1 := by omega
    obtain ⟨f, rfl⟩ : ∃ f, fuel = f + 1 := ⟨fuel - 1, by omega⟩
    rw [show dumpItems (v :: v2 :: vs) = dumpVal v ++ ',' :: ' ' :: dumpItems (v2 :: vs) by
      rw [dumpItems]
      simp]
    rw [List.append_assoc]
    simp only [List.cons_append]
    refine jsonItems_entry f (rtVal v f _ (by simpa using hv)) ?_
    rw [jsonItems_ws]
    exact rtItems (v2 :: vs) f rest (by simp) (by simpa using hvs)
/-- Parsing a dumped nonempty member list followed by the closing brace. -/
theorem rtPairs : ∀ (ps : List (String × PyVal)) (fuel : Nat) (rest : List Char), ps ≠ [] →
    needPairs ps ≤ fuel → jsonPairs fuel (dumpPairs ps ++ '}' :: rest) = some (ps, rest)
  | [], _, _, hne, _ => absurd rfl hne
  | [(k, w)], fuel, rest, _, hf => by
    rw [needPairs] at hf
    have hw : needF w ≤ fuel - 1 := by omega
    obtain ⟨f, rfl⟩ : ∃ f, fuel = f + 1 := ⟨fuel - 1, by omega⟩
    rw [show dumpPairs [(k, w)] = dumpStr k ++ ':' :: ' ' :: dumpVal w by rw [dumpPairs],
      dumpStr]
    simp only [List.cons_append, List.append_assoc, List.singleton_append, List.nil_append]
    exact jsonPairs_last f (scanStr_dumpStr k (':' :: (' ' :: (dumpVal w ++ '}' :: rest))))
      (by rw [jsonVal_ws]; exact rtVal w f ('}' :: rest) (by simpa using hw))
  | (k, w) :: p2 :: ps, fuel, rest, _, hf => by
    rw [show needPairs ((k, w) :: p2 :: ps) = 1 + needF w + needPairs (p2 :: ps) by
      rw [needPairs]
      simp] at hf
    have hw : needF w ≤ fuel - 1 := by omega
    have hps : needPairs (p2 :: ps) ≤ fuel - 1 := by omega
    obtain ⟨f, rfl⟩ : ∃ f, fuel = f + 1 := ⟨fuel - 1, by omega⟩
    rw [show dumpPairs ((k, w) :: p2 :: ps)
        = dumpStr k ++ ':' :: ' ' :: dumpVal w ++ ',' :: ' ' :: dumpPairs (p2 :: ps) by
      rw [dumpPairs]
      simp]
    rw [dumpStr]
    simp only [List.cons_append, List.append_assoc, List.singleton_append, List.nil_append]
    exact jsonPairs_entry f
      (scanStr_dumpStr k
        (':' :: (' ' :: (dumpVal w ++ ',' :: (' ' :: (dumpPairs (p2 :: ps) ++ '}' :: rest))))))
      (by
        rw [jsonVal_ws]
        exact rtVal w f (',' :: (' ' :: (dumpPairs (p2 :: ps) ++ '}' :: rest)))
          (by simpa using hw))
      (by
        rw [jsonPairs_ws]
        exact rtPairs (p2 :: ps) f rest (by simp) (by simpa using hps))
end

mutual
/-- The dumped text is always long enough to serve as parsing fuel. -/
theorem needF_le_len : ∀ v : PyVal, needF v ≤ (dumpVal v).length
  | .none => by rw [dumpVal]; simp [needF]
  | .bool true => by rw [dumpVal]; simp [needF]
  | .bool false => by rw [dumpVal]; simp [needF]
  | .str s => by rw [dumpVal, dumpStr]; simp [needF]
  | .arr [] => by rw [dumpVal]; simp [needF]
  | .arr (v :: vs) => by
    have hb := needItems_le_len (v :: vs) (by simp)
    rw [dumpVal, needF]
    simp only [List.length_cons, List.length_append, List.length_singleton]
    omega
  | .obj [] => by rw [dumpVal]; simp [needF]
  | .obj (p :: ps) => by
    have hb := needPairs_le_len (p :: ps) (by simp)
    rw [dumpVal, needF]
    simp only [List.length_cons, List.length_append, List.length_singleton]
    omega
/-- Length bound for dumped item lists. -/
theorem needItems_le_len : ∀ vs : List PyVal, vs ≠ [] →
    needItems vs ≤ (dumpItems vs).length + 1
  | [], hne => absurd rfl hne
  | [v], _ => by
    have ha := needF_le_len v
    rw [needItems, show dumpItems [v] = dumpVal v by rw [dumpItems]]
    omega
  | v :: v2 :: vs, _ => by
    have ha := needF_le_len v
    have hb := needItems_le_len (v2 :: vs) (by simp)
    rw [show needItems (v :: v2 :: vs) = 1 + needF v + needItems (v2 :: vs) by
        rw [needItems]
        simp,
      show dumpItems (v :: v2 :: vs) = dumpVal v ++ ',' :: ' ' :: dumpItems (v2 :: vs) by
        rw [dumpItems]
        simp]
    simp only [List.length_append, List.length_cons]
    omega
/-- Length bound for dumped member lists. -/
theorem needPairs_le_len : ∀ ps : List (String × PyVal), ps ≠ [] →
    needPairs ps ≤ (dumpPairs ps).length + 1
  | [], hne => absurd rfl hne
  | [(k, w)], _ => by
    have ha := needF_le_len w
    rw [needPairs, show dumpPairs [(k, w)] = dumpStr k ++ ':' :: ' ' :: dumpVal w by
      rw [dumpPairs]]
    simp only [List.length_append, List.length_cons]
    omega
  | (k, w) :: p2 :: ps, _ => by
    have ha := needF_le_len w
    have hb := needPairs_le_len (p2 :: ps) (by simp)
    rw [show needPairs ((k, w) :: p2 :: ps) = 1 + needF w + needPairs (p2 :: ps) by
        rw [needPairs]
        simp,
      show dumpPairs ((k, w) :: p2 :: ps)
          = dumpStr k ++ ':' :: ' ' :: dumpVal w ++ ',' :: ' ' :: dumpPairs (p2 :: ps) by
        rw [dumpPairs]
        simp]
    simp only [List.length_append, List.length_cons]
    omega
end

/-- The codec round trip: `json.loads` of `json.dumps` recovers the value. -/
theorem pyLoads_dumpVal (v : PyVal) : pyLoads (dumpVal v) = some v := by
  rw [pyLoads]
  have h := rtVal v ((dumpVal v).length + 1) [] (by have := needF_le_len v; omega)
  rw [List.append_nil] at h
  rw [h]
  simp [skipWs]

/-! ## Python string helpers used by `DokployClient._parse_logs` -/

/-- Python whitespace (the characters `str.strip` removes and `\s` matches;
ASCII and the common Unicode space code points). -/
def pyIsSpace (c : Char) : Bool :=
  let n := c.toNat
  n = 0x20 || decide (0x9 ≤ n ∧ n ≤ 0xd) || decide (0x1c ≤ n ∧ n ≤ 0x1f)
    || n = 0x85 || n = 0xa0 || n = 0x1680 || decide (0x2000 ≤ n ∧ n ≤ 0x200a)
    || n = 0x2028 || n = 0x2029 || n = 0x202f || n = 0x205f || n = 0x3000

/-- Line terminators recognised by `str.splitlines`. -/
def pyLineBreak (c : Char) : Bool :=
  let n := c.toNat
  n = 0xa || n = 0xd || n = 0xb || n = 0xc || n = 0x1c || n = 0x1d || n = 0x1e
    || n = 0x85 || n = 0x2028 || n = 0x2029

/-- Split into lines, collecting the current (reversed) line; `\r\n` counts
as one break, and the text after the last break is a final (possibly empty)
line. Fuel-bounded: each step consumes at least one character, so
`cs.length + 1` always suffices. -/
def splitLinesGo : Nat → List Char → List Char → List (List Char)
  | 0, cur, _ => [cur.reverse]
  | fuel + 1, cur, cs =>
    match cs with
    | [] => [cur.reverse]
    | c :: cs1 =>
      if c = '\r' then
        cur.reverse :: splitLinesGo fuel [] (if cs1.head? = some '\n' then cs1.tail else cs1)
      else if pyLineBreak c then cur.reverse :: splitLinesGo fuel [] cs1
      else splitLinesGo fuel (c :: cur) cs1

/-- `str.splitlines`: the trailing empty line produced when the text ends with
a terminator (or is empty) is dropped, as Python does. -/
def pySplitLines (cs : List Char) : List (List Char) :=
  let ls := splitLinesGo (cs.length + 1) [] cs
  if ls.getLast? = some [] then ls.dropLast else ls

/-- Python's `in` for strings: `pat` occurs as a contiguous substring. -/
def containsSub : List Char → List Char → Bool
  | pat, [] => pat.isEmpty
  | pat, c :: t => pat.isPrefixOf (c :: t) || containsSub pat t

/-- The text before the first occurrence of `pat` (everything when absent). -/
def beforeFirst (pat : List Char) : List Char → List Char
  | [] => []
  | c :: t => if pat.isPrefixOf (c :: t) then [] else c :: beforeFirst pat t

/-- Left-greedy splitting on a (nonempty) separator, as `str.split` does. -/
def pySplitGo (pat : List Char) : Nat → List Char → List (List Char)
  | 0, cs => [cs]
  | fuel + 1, cs =>
    if containsSub pat cs && !pat.isEmpty then
      let pre := beforeFirst pat cs
      pre :: pySplitGo pat fuel (cs.drop (pre.length + pat.length))
    else [cs]

/-- `str.split` with a nonempty separator. -/
def pySplit (pat cs : List Char) : List (List Char) :=
  pySplitGo pat (cs.length + 1) cs

/-- `str.strip()`: Python whitespace removed from both ends. -/
def pyStrip (cs : List Char) : List Char :=
  ((cs.dropWhile pyIsSpace).reverse.dropWhile pyIsSpace).reverse

/-- Consume exactly `n` ASCII digits. -/
def exactDigits : Nat → List Char → Option (List Char)
  | 0, cs => some cs
  | _ + 1, [] => Option.none
  | n + 1, c :: t => if c.isDigit then exactDigits n t else Option.none

/-- Consume one expected character. -/
def expectCh (c : Char) : List Char → Option (List Char)
  | [] => Option.none
  | d :: t => if d = c then some t else Option.none

/-- The maximal leading digit run and the remainder. -/
def takeDigitRun : List Char → List Char × List Char
  | [] => ([], [])
  | c :: t =>
    if c.isDigit then
      let (ds, r) := takeDigitRun t
      (c :: ds, r)
    else ([], c :: t)

/-- Match the timestamp pattern
`^\d{4}-\d{2}-\d{2}T\d{2}:\d{2}:\d{2}(\.\d+)?Z\s*` at the start of the input
and return what follows it, or fail. The optional fraction is greedy, exactly
as the regex backtracking resolves it. -/
def tsTail (cs : List Char) : Option (List Char) := do
  let r ← exactDigits 4 cs
  let r ← expectCh '-' r
  let r ← exactDigits 2 r
  let r ← expectCh '-' r
  let r ← exactDigits 2 r
  let r ← expectCh 'T' r
  let r ← exactDigits 2 r
  let r ← expectCh ':' r
  let r ← exactDigits 2 r
  let r ← expectCh ':' r
  let r ← exactDigits 2 r
  match r with
  | [] => Option.none
  | c :: r1 =>
    if c = '.' then
      let (ds, r2) := takeDigitRun r1
      if ds.isEmpty then Option.none
      else
        match r2 with
        | z :: r3 => if z = 'Z' then some (r3.dropWhile pyIsSpace) else Option.none
        | [] => Option.none
    else if c = 'Z' then some (r1.dropWhile pyIsSpace)
    else Option.none

/-- `timestamp_regex.sub('', line)`: the `^`-anchored pattern is removed when
it matches, otherwise the line is unchanged. -/
def stripTs (cs : List Char) : List Char :=
  match tsTail cs with
  | some r => r
  | Option.none => cs

/-! ## `DokployClient._parse_logs` -/

/-- The start sentinel the container entrypoint writes to raw stdout. -/
def startMarker : List Char := "__DOKPLOY_RESULT_START__".data

/-- The end sentinel. -/
def endMarker : List Char := "__DOKPLOY_RESULT_END__".data

/-- The marker-capture loop of `_parse_logs`: flip `capturing` on the start
marker line (keeping any stripped content after the marker), stop at the end
marker line (keeping any stripped content before it), and collect
timestamp-stripped lines in between. -/
def captureLines (lines : List (List Char)) (capturing : Bool) : List (List Char) :=
  match lines with
  | [] => []
  | line :: rest =>
    if containsSub startMarker line then
      let content := pyStrip (stripTs ((pySplit startMarker line).getLastD []))
      (if content.isEmpty then [] else [content]) ++ captureLines rest true
    else if containsSub endMarker line then
      let content := pyStrip (stripTs ((pySplit endMarker line).headD []))
      if content.isEmpty then [] else [content]
    else if capturing then stripTs line :: captureLines rest capturing
    else captureLines rest capturing

/-- The synthetic failure result `_parse_logs` falls back to. -/
def parseFailResult (logs : List Char) : PyVal :=
  .obj [("success", .bool false), ("output", .str ⟨logs⟩),
    ("error", .str "Failed to parse execution result from logs"),
    ("plots", .arr []), ("tables", .arr [])]

/-- `DokployClient._parse_logs`: split into lines, capture between the
markers, join, trim to the first `{`, and JSON-parse; any failure (no captured
lines, or a parse error — Python's `except`) yields the synthetic failure
result. The Python function never raises: this embedding is total by
construction. -/
def parseLogs (logs : List Char) : PyVal :=
  let lines := pySplitLines logs
  let resultLines := captureLines lines false
  if resultLines.isEmpty then parseFailResult logs
  else
    let jsonChars := resultLines.flatten
    let trimmed :=
      match jsonChars.findIdx? (· = '{') with
      | some i => jsonChars.drop i
      | Option.none => jsonChars
    match pyLoads trimmed with
    | some v => v
    | Option.none => parseFailResult logs

/-! ## Reasoning about `_parse_logs` on well-formed marker blobs -/

/-- A log blob assembled from newline-terminated lines (the docker log shape). -/
def joinNL (ls : List (List Char)) : List Char :=
  (ls.map (· ++ ['\n'])).flatten

/-- Splitting consumes one terminator-free line up to its newline. -/
theorem splitLinesGo_line (line : List Char)
    (hline : ∀ c ∈ line, pyLineBreak c = false) :
    ∀ (f : Nat) (cur rest : List Char), line.length + rest.length < f →
    splitLinesGo f cur (line ++ '\n' :: rest)
      = (cur.reverse ++ line) :: splitLinesGo (f - (line.length + 1)) [] rest := by
  induction line with
  | nil =>
    intro f cur rest hf
    obtain ⟨g, rfl⟩ : ∃ g, f = g + 1 := ⟨f - 1, by omega⟩
    rw [List.nil_append, splitLinesGo]
    simp [pyLineBreak]
  | cons c line ih =>
    intro f cur rest hf
    obtain ⟨g, rfl⟩ : ∃ g, f = g + 1 := ⟨f - 1, by omega⟩
    have hc : pyLineBreak c = false := hline c (by simp)
    have hcr : ¬c = '\r' := by
      intro hcc
      rw [hcc] at hc
      exact absurd hc (by decide)
    rw [List.cons_append, splitLinesGo]
    simp only [hcr, hc, if_false, Bool.false_eq_true, reduceIte]
    rw [ih (fun x hx => hline x (by simp [hx])) g (c :: cur) rest (by simp at hf ⊢; omega)]
    simp only [List.reverse_cons, List.append_assoc, List.cons_append, List.nil_append,
      List.length_cons]
    rw [show g + 1 - (line.length + 1 + 1) = g - (line.length + 1) by omega]

/-- Splitting a run of newline-terminated terminator-free lines yields exactly
those lines, then continues on the remainder. -/
theorem splitLinesGo_join (ls : List (List Char))
    (hls : ∀ l ∈ ls, ∀ c ∈ l, pyLineBreak c = false) :
    ∀ (f : Nat) (rest : List Char), (joinNL ls).length + rest.length < f →
    splitLinesGo f [] (joinNL ls ++ rest)
      = ls ++ splitLinesGo (f - (joinNL ls).length) [] rest := by
  induction ls with
  | nil =>
    intro f rest hf
    simp [joinNL]
  | cons l ls ih =>
    intro f rest hf
    have hjoin : joinNL (l :: ls) = l ++ '\n' :: joinNL ls := by
      simp [joinNL]
    rw [hjoin] at hf ⊢
    rw [List.append_assoc, List.cons_append,
      splitLinesGo_line l (hls l (by simp)) f [] (joinNL ls ++ rest) (by
        simp only [List.length_append, List.length_cons] at hf ⊢
        omega)]
    rw [ih (fun x hx => hls x (by simp [hx])) (f - (l.length + 1)) rest (by
      simp only [List.length_append, List.length_cons] at hf ⊢
      omega)]
    simp only [List.reverse_nil, List.nil_append, List.cons_append, List.length_append,
      List.length_cons]
    rw [show f - (l.length + 1) - (joinNL ls).length
        = f - (l.length + (1 + (joinNL ls).length)) by omega]
    rw [show l.length + ((joinNL ls).length + 1) = l.length + (1 + (joinNL ls).length) by omega]

/-- `str.splitlines` of a blob of newline-terminated terminator-free lines. -/
theorem pySplitLines_join (ls : List (List Char))
    (hls : ∀ l ∈ ls, ∀ c ∈ l, pyLineBreak c = false) :
    pySplitLines (joinNL ls) = ls := by
  rw [pySplitLines]
  have h := splitLinesGo_join ls hls ((joinNL ls).length + 1) [] (by simp)
  rw [List.append_nil] at h
  rw [h]
  rw [show ((joinNL ls).length + 1 - (joinNL ls).length) = 1 by omega]
  rw [show splitLinesGo 1 [] [] = [[]] by rw [splitLinesGo]; simp]
  simp

/-- The capture loop in capturing mode collects timestamp-stripped lines up to
the end-marker line, which contributes nothing when only the marker (with its
surrounding timestamp/whitespace) is on it; later lines are never reached. -/
theorem captureLines_mid (mids : List (List Char))
    (hmids : ∀ l ∈ mids, containsSub startMarker l = false ∧ containsSub endMarker l = false)
    (endLine : List Char) (he0 : containsSub startMarker endLine = false)
    (he1 : containsSub endMarker endLine = true)
    (he2 : pyStrip (stripTs ((pySplit endMarker endLine).head?.getD [])) = [])
    (tail : List (List Char)) :
    captureLines (mids ++ endLine :: tail) true = mids.map stripTs := by
  induction mids with
  | nil =>
    rw [List.nil_append, captureLines]
    simp [he0, he1, he2]
  | cons m mids ih =>
    have hm := hmids m (by simp)
    rw [List.cons_append, captureLines]
    simp only [hm.1, hm.2, Bool.false_eq_true, if_false, if_true, List.map_cons]
    rw [ih (fun x hx => hmids x (by simp [hx]))]

/-- The full capture loop on a well-formed blob: marker-free lines before the
start marker are skipped, the marker lines themselves contribute nothing, and
exactly the timestamp-stripped middle lines are captured. -/
theorem captureLines_spec (pre : List (List Char))
    (hpre : ∀ l ∈ pre, containsSub startMarker l = false ∧ containsSub endMarker l = false)
    (startLine : List Char) (hs1 : containsSub startMarker startLine = true)
    (hs2 : pyStrip (stripTs ((pySplit startMarker startLine).getLast?.getD [])) = [])
    (mids : List (List Char))
    (hmids : ∀ l ∈ mids, containsSub startMarker l = false ∧ containsSub endMarker l = false)
    (endLine : List Char) (he0 : containsSub startMarker endLine = false)
    (he1 : containsSub endMarker endLine = true)
    (he2 : pyStrip (stripTs ((pySplit endMarker endLine).head?.getD [])) = [])
    (tail : List (List Char)) :
    captureLines (pre ++ startLine :: (mids ++ endLine :: tail)) false = mids.map stripTs := by
  induction pre with
  | nil =>
    rw [List.nil_append, captureLines]
    simp only [hs1, if_true, List.getLastD_eq_getLast?, hs2, List.isEmpty_nil,
      List.nil_append]
    exact captureLines_mid mids hmids endLine he0 he1 he2 tail
  | cons p pre ih =>
    have hp := hpre p (by simp)
    rw [List.cons_append, captureLines]
    simp only [hp.1, hp.2, Bool.false_eq_true, if_false]
    exact ih fun x hx => hpre x (by simp [hx])

/-- `containsSub` is exactly substring (infix) occurrence. -/
theorem containsSub_iff_within (pat : List Char) :
    ∀ cs : List Char, containsSub pat cs = true ↔ pat <:+: cs := by
  intro cs
  induction cs with
  | nil =>
    rw [containsSub]
    simp [List.isEmpty_iff, List.infix_nil]
  | cons c t ih =>
    rw [containsSub]
    simp only [Bool.or_eq_true, List.isPrefixOf_iff_prefix, ih]
    constructor
    · rintro (h | h)
      · exact h.isInfix
      · exact List.infix_cons h
    · intro h
      rcases List.infix_cons_iff.mp h with h | h
      · exact Or.inl h
      · exact Or.inr h

/-- Every line produced by the splitting loop is a contiguous piece of the
processed text (with the pending partial line prepended). -/
theorem splitLinesGo_within : ∀ (f : Nat) (cur cs : List Char),
    ∀ l ∈ splitLinesGo f cur cs, l <:+: (cur.reverse ++ cs) := by
  intro f
  induction f with
  | zero =>
    intro cur cs l hl
    rw [show splitLinesGo 0 cur cs = [cur.reverse] from rfl] at hl
    simp at hl
    subst hl
    exact (List.prefix_append _ _).isInfix
  | succ f ih =>
    intro cur cs l hl
    match cs with
    | [] =>
      rw [splitLinesGo] at hl
      simp at hl
      subst hl
      exact (List.prefix_append _ _).isInfix
    | c :: cs1 =>
      rw [splitLinesGo] at hl
      by_cases hcr : c = '\r'
      · rw [if_pos hcr] at hl
        rcases List.mem_cons.mp hl with rfl | hl
        · exact (List.prefix_append _ _).isInfix
        · have h2 := ih [] _ l hl
          rw [List.reverse_nil, List.nil_append] at h2
          have hX : (if cs1.head? = some '\n' then cs1.tail else cs1) <:+: cs1 := by
            split
            · exact (List.tail_suffix cs1).isInfix
            · exact List.infix_rfl
          have h3 : l <:+: c :: cs1 := List.infix_cons (h2.trans hX)
          exact h3.trans (List.suffix_append cur.reverse (c :: cs1)).isInfix
      · rw [if_neg hcr] at hl
        by_cases hbr : pyLineBreak c
        · rw [if_pos hbr] at hl
          rcases List.mem_cons.mp hl with rfl | hl
          · exact (List.prefix_append _ _).isInfix
          · have h2 := ih [] cs1 l hl
            rw [List.reverse_nil, List.nil_append] at h2
            exact (List.infix_cons h2).trans (List.suffix_append cur.reverse (c :: cs1)).isInfix
        · rw [if_neg hbr] at hl
          have h2 := ih (c :: cur) cs1 l hl
          rw [List.reverse_cons, List.append_assoc, List.singleton_append] at h2
          exact h2

/-- Every line of `str.splitlines` occurs inside the original text. -/
theorem pySplitLines_within (cs : List Char) :
    ∀ l ∈ pySplitLines cs, l <:+: cs := by
  intro l hl
  rw [pySplitLines] at hl
  have hmem : l ∈ splitLinesGo (cs.length + 1) [] cs := by
    by_cases h : (splitLinesGo (cs.length + 1) [] cs).getLast? = some []
    · rw [if_pos h] at hl
      exact List.dropLast_subset _ hl
    · rw [if_neg h] at hl
      exact hl
  have := splitLinesGo_within (cs.length + 1) [] cs l hmem
  rwa [List.reverse_nil, List.nil_append] at this

/-- With no marker on any line, nothing is ever captured. -/
theorem captureLines_skip (ls : List (List Char))
    (h : ∀ l ∈ ls, containsSub startMarker l = false ∧ containsSub endMarker l = false) :
    captureLines ls false = [] := by
  induction ls with
  | nil => rw [captureLines]
  | cons l ls ih =>
    have hl := h l (by simp)
    rw [captureLines]
    simp only [hl.1, hl.2, Bool.false_eq_true, if_false]
    exact ih fun x hx => h x (by simp [hx])

/-! ## Claims C1 and C2: the marker-delimited log parser -/

/-- **C1 (amended).** For every log blob assembled from newline-terminated
lines — marker-free junk lines, a start-marker line carrying nothing but the
marker (with an optional timestamp prefix and whitespace), middle lines, an
end-marker line carrying nothing but the marker, and arbitrary trailing
lines — if stripping the timestamp prefix from each middle line makes the
middle lines concatenate exactly to the `json.dumps` text of the object the
entrypoint wrote, then `_parse_logs` recovers exactly that object. (The
original claim, without the proviso that timestamp stripping recovers each
captured line's payload, is refuted by `c1_roundtrip_counterexample`.) -/
theorem c1_parse_logs_roundtrip
    (kvs : List (String × PyVal)) (pre mids tail : List (List Char))
    (startLine endLine : List Char)
    (hbreak : ∀ l ∈ pre ++ startLine :: (mids ++ endLine :: tail), ∀ c ∈ l,
      pyLineBreak c = false)
    (hpre : ∀ l ∈ pre, containsSub startMarker l = false ∧ containsSub endMarker l = false)
    (hs1 : containsSub startMarker startLine = true)
    (hs2 : pyStrip (stripTs ((pySplit startMarker startLine).getLast?.getD [])) = [])
    (hmids : ∀ l ∈ mids, containsSub startMarker l = false ∧ containsSub endMarker l = false)
    (he0 : containsSub startMarker endLine = false)
    (he1 : containsSub endMarker endLine = true)
    (he2 : pyStrip (stripTs ((pySplit endMarker endLine).head?.getD [])) = [])
    (hchunks : (mids.map stripTs).flatten = dumpVal (.obj kvs)) :
    parseLogs (joinNL (pre ++ startLine :: (mids ++ endLine :: tail))) = .obj kvs := by
  have hsplit := pySplitLines_join (pre ++ startLine :: (mids ++ endLine :: tail)) hbreak
  have hcap := captureLines_spec pre hpre startLine hs1 hs2 mids hmids endLine he0 he1 he2 tail
  have hne : (mids.map stripTs).isEmpty = false := by
    rcases mids with _ | ⟨m, ms⟩
    · exfalso
      rw [dumpVal] at hchunks
      simp at hchunks
    · simp
  have hfind : (dumpVal (.obj kvs)).findIdx? (· = '{') = some 0 := by
    rw [dumpVal]
    simp [List.findIdx?_cons]
  rw [parseLogs]
  simp only [hsplit, hcap, hne, Bool.false_eq_true, if_false, hchunks, hfind,
    List.drop_zero, pyLoads_dumpVal]

/-- The entrypoint result used in the C1 scenario checks. -/
def c1Original : PyVal :=
  .obj [("success", .bool true), ("output", .str "2024-01-09T14:14:04Z hi"),
    ("error", .none), ("plots", .arr [])]

/-- The dumped text of `c1Original`, split across two log lines right before
the timestamp-shaped text inside the `output` string. -/
def c1ChunkA : List Char := "\x7b\"success\": true, \"output\": \"".data

/-- The second chunk, whose payload itself begins with timestamp-shaped text. -/
def c1ChunkB : List Char :=
  "2024-01-09T14:14:04Z hi\", \"error\": null, \"plots\": []\x7d".data

/-- The C1 counterexample blob: both marker lines present, the dumped object
split across two captured lines, no transport timestamp prefixes. -/
def c1Blob : List Char := joinNL [startMarker, c1ChunkA, c1ChunkB, endMarker]

set_option maxRecDepth 1000000 in
/-- **C1 (counterexample to the claim as stated).** The blob embeds exactly
the dumped entrypoint object between the two marker lines, every line carries
an (optional) timestamp prefix as the claim allows, yet `_parse_logs` strips
the timestamp-shaped start of the second chunk and returns a different
object: the round trip fails. -/
theorem c1_roundtrip_counterexample :
    c1ChunkA ++ c1ChunkB = dumpVal c1Original
    ∧ parseLogs c1Blob
      = .obj [("success", .bool true), ("output", .str "hi"),
          ("error", .none), ("plots", .arr [])]
    ∧ parseLogs c1Blob ≠ c1Original := by
  refine ⟨by decide, by decide, by decide⟩

/-- The object recovered in the C1 witness scenario. -/
def c1wResult : PyVal :=
  .obj [("success", .bool true), ("output", .str "ok"), ("error", .none), ("plots", .arr [])]

/-- The Dokploy timestamp prefix of the spec's scenario. -/
def c1wTs : List Char := "2024-01-09T14:14:04.874924845Z ".data

set_option maxRecDepth 1000000 in
/-- **C1 witness.** The amended round-trip theorem applied to a concrete
blob: a junk line, a timestamped start-marker line, the dumped object split
across two lines (the second with a timestamp prefix), a timestamped
end-marker line and a trailing line. -/
theorem c1_parse_logs_roundtrip_witness :
    parseLogs (joinNL (["Starting user code execution...".data]
      ++ (c1wTs ++ startMarker) :: (["\x7b\"success\": true, \"outp".data,
        c1wTs ++ "ut\": \"ok\", \"error\": null, \"plots\": []\x7d".data]
        ++ (c1wTs ++ endMarker) :: ["container exited".data]))) = c1wResult :=
  c1_parse_logs_roundtrip
    [("success", .bool true), ("output", .str "ok"), ("error", .none), ("plots", .arr [])]
    ["Starting user code execution...".data]
    ["\x7b\"success\": true, \"outp".data,
      c1wTs ++ "ut\": \"ok\", \"error\": null, \"plots\": []\x7d".data]
    ["container exited".data]
    (c1wTs ++ startMarker) (c1wTs ++ endMarker)
    (by decide) (by decide) (by decide) (by decide) (by decide) (by decide) (by decide)
    (by decide) (by decide)

/-- **C2 (amended).** For every log blob in which *both* markers are absent,
`_parse_logs` returns the synthetic failure result carrying the raw text, and
(being a total function) never raises. (The original claim — that a blob
missing *either* marker always yields the synthetic failure — is refuted by
`c2_missing_marker_counterexample`: with only the end marker present, content
before it can still parse.) -/
theorem c2_missing_markers_failure (logs : List Char)
    (h1 : containsSub startMarker logs = false)
    (h2 : containsSub endMarker logs = false) :
    parseLogs logs = parseFailResult logs := by
  have hl : ∀ l ∈ pySplitLines logs,
      containsSub startMarker l = false ∧ containsSub endMarker l = false := by
    intro l hml
    have hinf := pySplitLines_within logs l hml
    constructor
    · by_contra hc
      rw [Bool.not_eq_false] at hc
      have hsub := (containsSub_iff_within startMarker l).mp hc
      have := (containsSub_iff_within startMarker logs).mpr (hsub.trans hinf)
      rw [h1] at this
      exact absurd this (by simp)
    · by_contra hc
      rw [Bool.not_eq_false] at hc
      have hsub := (containsSub_iff_within endMarker l).mp hc
      have := (containsSub_iff_within endMarker logs).mpr (hsub.trans hinf)
      rw [h2] at this
      exact absurd this (by simp)
  rw [parseLogs]
  simp only [captureLines_skip (pySplitLines logs) hl, List.isEmpty_nil, if_true]

/-- A blob with the start marker absent but the end marker present, preceded
by a complete JSON object. -/
def c2Blob : List Char := "{}__DOKPLOY_RESULT_END__\n".data

set_option maxRecDepth 1000000 in
/-- **C2 (counterexample to the claim as stated).** The start marker is
absent, so the claim demands the synthetic failure result; instead the parser
captures the text before the end marker and successfully returns the parsed
object `{}`. -/
theorem c2_missing_marker_counterexample :
    containsSub startMarker c2Blob = false
    ∧ containsSub endMarker c2Blob = true
    ∧ parseLogs c2Blob = PyVal.obj []
    ∧ parseLogs c2Blob ≠ parseFailResult c2Blob := by
  refine ⟨by decide, by decide, by decide, by decide⟩

set_option maxRecDepth 1000000 in
/-- **C2 witness.** The amended theorem applied to a concrete marker-free
blob. -/
theorem c2_missing_markers_failure_witness :
    parseLogs ("starting up\nno result yet\n".data)
      = parseFailResult ("starting up\nno result yet\n".data) :=
  c2_missing_markers_failure ("starting up\nno result yet\n".data) (by decide) (by decide)

/-!
## Coding-agent loop controller (`nodes/coding_agent.py`)

A LangChain-style message as seen by `should_continue_coding`,
`tool_execution_node` and `finalize_analysis_node`.  The constructor
records the message class; AI messages carry the `name` fields of their
`tool_calls` entries (the only part of a tool call those functions
inspect) and tool messages carry their `name` and the result of
`ast.literal_eval` applied to their content (`none` when the content is
not a Python literal).
-/

inductive Msg where
  | system (content : String)
  | human (content : String)
  | ai (content : String) (toolCalls : List String)
  | tool (name : String) (parsed : Option PyVal)
deriving DecidableEq

/-- `hasattr(msg, "tool_calls")`: in langchain-core, `tool_calls` is a
declared field of `AIMessage` (defaulting to `[]`), so the attribute
exists on every AI message — including those built by
`llm_client.py`, which always passes `tool_calls=` to the constructor —
and on no other message class used here. -/
def Msg.hasToolCallsAttr : Msg → Bool
  | .ai _ _ => true
  | _ => false

/-- Python truthiness of `msg.tool_calls` (a list: truthy iff nonempty). -/
def Msg.toolCallsTruthy : Msg → Bool
  | .ai _ tcs => !tcs.isEmpty
  | _ => false

/-- `[tc["name"] for tc in last_message.tool_calls]`. -/
def Msg.toolCallNames : Msg → List String
  | .ai _ tcs => tcs
  | _ => []

/-- `isinstance(msg, AIMessage)`. -/
def Msg.isAI : Msg → Bool
  | .ai _ _ => true
  | _ => false

/-- `should_continue_coding` (coding_agent.py): routing out of the
coding agent.  `lastMessage` is `state["messages"][-1]`,
`codeIterations` is `state.get("code_iterations", 0)` and
`activeStepIndex` is `state.get("active_step_index", -1)`.
`max_iterations = 40` is the hard limit; the `>= 10` soft threshold
only prints a notice. -/
def shouldContinueCoding (lastMessage : Msg) (activeStepIndex : Int)
    (codeIterations : Nat) : String :=
  if codeIterations ≥ 40 then "finalize"
  else if lastMessage.hasToolCallsAttr && lastMessage.toolCallsTruthy then
    if lastMessage.toolCallNames.contains "complete_step" then "finalize_step"
    else "execute_tools"
  else if lastMessage.isAI then
    if activeStepIndex ≥ 0 then "execute_tools" else "finalize"
  else "continue"

/-- **C4.** In `should_continue_coding`, every state whose per-step
iteration counter is at least 40 routes to `"finalize"` regardless of
the last message and of the active step index; and for every counter
`i` with `10 ≤ i < 40` the returned route equals the route computed at
counter 0 — the soft threshold changes nothing. -/
theorem c4_iteration_caps :
    (∀ (m : Msg) (asi : Int) (i : Nat), 40 ≤ i →
      shouldContinueCoding m asi i = "finalize")
    ∧ (∀ (m : Msg) (asi : Int) (i : Nat), 10 ≤ i → i < 40 →
      shouldContinueCoding m asi i = shouldContinueCoding m asi 0) := by
  refine ⟨fun m asi i hi => ?_, fun m asi i h10 h40 => ?_⟩
  · rw [shouldContinueCoding, if_pos hi]
  · rw [shouldContinueCoding, shouldContinueCoding,
      if_neg (by omega : ¬ i ≥ 40), if_neg (by omega : ¬ 0 ≥ 40)]

/-- Witness for C4 at concrete inputs: at counter 40 a tool-calling AI
message still finalizes, and counter 12 routes exactly as counter 0. -/
theorem c4_iteration_caps_witness :
    shouldContinueCoding (.ai "done" ["python_repl_tool"]) 0 40 = "finalize"
    ∧ shouldContinueCoding (.ai "let me think" []) (-1) 12
        = shouldContinueCoding (.ai "let me think" []) (-1) 0 :=
  ⟨c4_iteration_caps.1 _ _ _ (by decide),
   c4_iteration_caps.2 _ _ _ (by decide) (by decide)⟩

/-!
## Step dispatcher (`nodes/dispatcher.py`, `tool_execution_node`)

Modelled from the spec: `my_agent/models/state.py` is not present under
`src/`, so the `AnalysisStep` record follows the spec's data model
(`{order, description, assignedAgent, status, resultSummary}`); every
field and its use below is corroborated by the accesses in
`dispatcher.py` (`step.get("status")`, `step.get("order")`,
`step.get("description")`, `step.get("assigned_agent")`,
`step.get("result_summary")`) and in `tool_execution_node`
(`steps[i]["status"] = "completed"`, `steps[i]["result_summary"]`).
Statuses are plain strings in the code (`"pending"`, `"completed"`).
-/

structure AnalysisStep where
  order : Nat
  description : String
  assignedAgent : String
  status : String
  resultSummary : Option String
deriving DecidableEq

/-- The slice of `CodingSubgraphState` read and written by
`task_dispatcher_node` and by the `complete_step` branch of
`tool_execution_node`: `analysis_steps`, `active_step_index`,
`code_iterations`.  The dispatcher's message construction (system and
human prompts for the worker) touches none of these fields and is not
modelled. -/
structure SubState where
  steps : List AnalysisStep
  activeStepIndex : Int
  codeIterations : Nat
deriving DecidableEq

/-- `task_dispatcher_node` (dispatcher.py): empty plan → index -1; else
scan in order for the first step with `status == "pending"`; none →
index -1; otherwise activate that index and reset `code_iterations`
to 0.  The step list itself is returned unchanged (the node never
writes a status). -/
def taskDispatcherNode (s : SubState) : SubState :=
  if s.steps.isEmpty then { s with activeStepIndex := -1 }
  else
    match s.steps.findIdx? (fun st => st.status == "pending") with
    | some i => { s with activeStepIndex := (i : Int), codeIterations := 0 }
    | Option.none => { s with activeStepIndex := -1 }

/-- In-place mutation `steps[i]["status"] = "completed";
steps[i]["result_summary"] = summary` as a functional update at
index `i`. -/
def setCompleted (summary : String) : List AnalysisStep → Nat → List AnalysisStep
  | [], _ => []
  | st :: rest, 0 =>
      { st with status := "completed", resultSummary := some summary } :: rest
  | st :: rest, n + 1 => st :: setCompleted summary rest n

/-- The state update performed by the `complete_step` branch of
`tool_execution_node`: when `0 ≤ active_step_index < len(steps)`, set
that step's status to `"completed"` and its `result_summary` to the
tool call's summary; otherwise leave the list unchanged. -/
def completeStepUpdate (s : SubState) (summary : String) : SubState :=
  if 0 ≤ s.activeStepIndex ∧ s.activeStepIndex < (s.steps.length : Int) then
    { s with steps := setCompleted summary s.steps s.activeStepIndex.toNat }
  else s

theorem setCompleted_status (summary : String) :
    ∀ (l : List AnalysisStep) (i : Nat) (st : AnalysisStep),
      (setCompleted summary l i).get? i = some st → st.status = "completed" := by
  intro l
  induction l with
  | nil => intro i st h; simp only [setCompleted] at h; simp at h
  | cons a rest ih =>
    intro i st h
    cases i with
    | zero =>
      simp only [setCompleted, List.get?_cons_zero] at h
      cases h
      rfl
    | succ n =>
      simp only [setCompleted, List.get?_cons_succ] at h
      exact ih n st h

theorem findIdx?_some_spec {α : Type} (p : α → Bool) :
    ∀ (l : List α) (i : Nat), l.findIdx? p = some i →
      (∃ x, l.get? i = some x ∧ p x = true)
      ∧ ∀ j, j < i → ∀ y, l.get? j = some y → p y = false := by
  intro l
  induction l with
  | nil => intro i h; simp [List.findIdx?] at h
  | cons a t ih =>
    intro i h
    rw [List.findIdx?_cons] at h
    by_cases hp : p a
    · rw [if_pos hp] at h
      cases h
      exact ⟨⟨a, rfl, hp⟩, fun j hj y _ => absurd hj (Nat.not_lt_zero j)⟩
    · rw [if_neg hp] at h
      have h1 : List.findIdx? p t (0 + 1) = some i := h
      rw [List.findIdx?_succ] at h1
      simp only [Option.map_eq_some'] at h1
      obtain ⟨i0, hi0, hadd⟩ := h1
      obtain ⟨⟨x, hx, hpx⟩, hbefore⟩ := ih i0 hi0
      subst hadd
      refine ⟨⟨x, ?_, hpx⟩, ?_⟩
      · simpa using hx
      · intro j hj y hy
        cases j with
        | zero =>
          simp only [List.get?_cons_zero] at hy
          cases hy
          simpa using hp
        | succ j0 =>
          simp only [List.get?_cons_succ] at hy
          exact hbefore j0 (by omega) y hy

theorem findIdx?_none_spec {α : Type} (p : α → Bool) :
    ∀ l : List α, l.findIdx? p = Option.none →
      ∀ x ∈ l, p x = false := by
  intro l
  induction l with
  | nil => intro _ x hx; cases hx
  | cons a t ih =>
    intro h x hx
    rw [List.findIdx?_cons] at h
    by_cases hp : p a
    · rw [if_pos hp] at h; cases h
    · rw [if_neg hp] at h
      have h1 : List.findIdx? p t (0 + 1) = Option.none := h
      rw [List.findIdx?_succ] at h1
      simp only [Option.map_eq_none'] at h1
      rcases List.mem_cons.mp hx with rfl | hx2
      · simpa using hp
      · exact ih h1 x hx2

/-- **C8 (amended).** On every dispatch: (1) the step list is returned
unchanged — in particular no step is marked `"in_progress"`; (2) if the
scan finds a first pending step at index `i`, the dispatcher activates
exactly that index and resets the iteration counter to 0, that step is
pending, and no earlier step is pending; (3) if no step is pending (or
the plan is empty) the active index becomes -1; (4) the `complete_step`
handler sets the active step's status to `"completed"`; (5) a completed
step is never re-activated by a dispatch, and it survives the dispatch
unchanged — so dispatching repeatedly after completion never touches it
again. -/
theorem c8_dispatcher_selection :
    (∀ s : SubState, (taskDispatcherNode s).steps = s.steps)
    ∧ (∀ (s : SubState) (i : Nat),
        s.steps.findIdx? (fun st => st.status == "pending") = some i →
        (taskDispatcherNode s).activeStepIndex = (i : Int)
        ∧ (taskDispatcherNode s).codeIterations = 0
        ∧ (∃ st, s.steps.get? i = some st ∧ st.status = "pending")
        ∧ ∀ j, j < i → ∀ st, s.steps.get? j = some st → st.status ≠ "pending")
    ∧ (∀ s : SubState,
        s.steps.findIdx? (fun st => st.status == "pending") = Option.none →
        (taskDispatcherNode s).activeStepIndex = -1)
    ∧ (∀ (s : SubState) (summary : String) (i : Nat) (st : AnalysisStep),
        s.activeStepIndex = (i : Int) → i < s.steps.length →
        (completeStepUpdate s summary).steps.get? i = some st →
        st.status = "completed")
    ∧ (∀ (s : SubState) (i : Nat) (st : AnalysisStep),
        s.steps.get? i = some st → st.status = "completed" →
        (taskDispatcherNode s).activeStepIndex ≠ (i : Int)
        ∧ (taskDispatcherNode s).steps.get? i = some st) := by
  have hsteps : ∀ s : SubState, (taskDispatcherNode s).steps = s.steps := by
    intro s
    rw [taskDispatcherNode]
    split
    · rfl
    · split <;> rfl
  have hred : ∀ (s : SubState) (i : Nat),
      s.steps.findIdx? (fun st => st.status == "pending") = some i →
      taskDispatcherNode s
        = { s with activeStepIndex := (i : Int), codeIterations := 0 } := by
    intro s i hfind
    rw [taskDispatcherNode]
    split
    · rename_i hemp
      exfalso
      cases h : s.steps with
      | nil => rw [h] at hfind; simp [List.findIdx?] at hfind
      | cons a t => rw [h] at hemp; simp at hemp
    · rw [hfind]
  refine ⟨hsteps, ?_, ?_, ?_, ?_⟩
  · intro s i hfind
    obtain ⟨⟨st, hst, hpst⟩, hbefore⟩ := findIdx?_some_spec _ s.steps i hfind
    refine ⟨?_, ?_, ⟨st, hst, by simpa using hpst⟩, ?_⟩
    · rw [hred s i hfind]
    · rw [hred s i hfind]
    · intro j hj st' hst' hpend
      have := hbefore j hj st' hst'
      rw [hpend] at this
      simp at this
  · intro s hfind
    rw [taskDispatcherNode]
    split
    · rfl
    · rw [hfind]
  · intro s summary i st hasi hlen hget
    rw [completeStepUpdate,
      if_pos (by rw [hasi]; exact ⟨by exact_mod_cast Nat.zero_le i, by exact_mod_cast hlen⟩)]
      at hget
    rw [hasi] at hget
    exact setCompleted_status summary s.steps i st hget
  · intro s i st hget hcomp
    constructor
    · rw [taskDispatcherNode]
      split
      · intro h
        have h0 : (-1 : Int) = (i : Int) := h
        omega
      · split
        · rename_i j hj
          obtain ⟨⟨st', hst', hpst'⟩, _⟩ := findIdx?_some_spec _ s.steps j hj
          intro hij
          have hji : j = i := by
            have h0 : ((j : Int)) = (i : Int) := hij
            exact_mod_cast h0
          subst hji
          rw [hget] at hst'
          cases hst'
          rw [hcomp] at hpst'
          exact absurd hpst' (by decide)
        · intro h
          have h0 : (-1 : Int) = (i : Int) := h
          omega
    · rw [hsteps s]; exact hget

/-- A two-step plan whose first step is already completed and whose
second is pending, dispatched with a stale active index and a nonzero
iteration counter. -/
def c8sPending : SubState :=
  ⟨[⟨1, "load the workbook", "excel", "completed", some "loaded"⟩,
    ⟨2, "plot revenue", "excel", "pending", Option.none⟩], -1, 7⟩

set_option maxRecDepth 100000 in
/-- Counterexample to C8 as stated: the dispatcher activates the first
pending step (index 1) and resets the counter, but the activated step's
status is still "pending" afterwards — `task_dispatcher_node` never
marks any step "in_progress". -/
theorem c8_in_progress_counterexample :
    (taskDispatcherNode c8sPending).activeStepIndex = 1
    ∧ (taskDispatcherNode c8sPending).codeIterations = 0
    ∧ (taskDispatcherNode c8sPending).steps.map (fun st => st.status)
        = ["completed", "pending"]
    ∧ ∀ st ∈ (taskDispatcherNode c8sPending).steps, st.status ≠ "in_progress" := by
  decide

/-- Witness for C8 at concrete inputs: selection of the first pending
step with counter reset, non-re-activation of a completed step, and the
completion handler's status write. -/
theorem c8_dispatcher_selection_witness :
    ((taskDispatcherNode c8sPending).activeStepIndex = ((1 : Nat) : Int)
      ∧ (taskDispatcherNode c8sPending).codeIterations = 0)
    ∧ (taskDispatcherNode c8sPending).activeStepIndex ≠ ((0 : Nat) : Int)
    ∧ ((⟨2, "plot revenue", "excel", "completed", some "done"⟩ : AnalysisStep).status
        = "completed") :=
  ⟨⟨(c8_dispatcher_selection.2.1 c8sPending 1 (by decide)).1,
    (c8_dispatcher_selection.2.1 c8sPending 1 (by decide)).2.1⟩,
   (c8_dispatcher_selection.2.2.2.2 c8sPending 0
      ⟨1, "load the workbook", "excel", "completed", some "loaded"⟩
      (by decide) rfl).1,
   c8_dispatcher_selection.2.2.2.1
      ⟨[⟨2, "plot revenue", "excel", "pending", Option.none⟩], 0, 3⟩ "done" 0
      ⟨2, "plot revenue", "excel", "completed", some "done"⟩
      rfl (by decide) (by decide)⟩

/-!
## Deployment monitor (`DokployClient._monitor_deployment`)

The monitor GETs `deployment.all` up to 60 times (`range(60)`): a
nonempty response whose first entry has status `"done"` returns,
status `"error"` raises `Exception(f"Deployment failed: {...}")`, and
anything else — including an empty response — sleeps 2 seconds and
retries; exhausting the range raises `Exception("Deployment timed
out")`.  The network is an oracle `polls : Nat → Except String (List
DeployEntry)`: `polls i` is the i-th GET's decoded JSON list, or the
`str` of an exception raised by the request/decoding, which propagates
out of the monitor.
-/

/-- One entry of the `deployment.all` response, as read by the monitor
(`.get("status")`, `.get("errorMessage")`; a missing key is `none`). -/
structure DeployEntry where
  status : Option String
  errorMessage : Option String

/-- `f"Deployment failed: {latest_deployment.get('errorMessage')}"`
(a missing key formats as `"None"`). -/
def deployFailedMsg (em : Option String) : String :=
  "Deployment failed: " ++ em.getD "None"

/-- Outcome of a monitor run: the value returned or the `str` of the
exception raised, the number of GETs made, and the total seconds spent
in `asyncio.sleep(2)`. -/
structure MonitorRun where
  result : Except String Unit
  pollsMade : Nat
  sleepSeconds : Nat

@[simp] theorem mkRun_result (a : Except String Unit) (b c : Nat) :
    (MonitorRun.mk a b c).result = a := rfl

@[simp] theorem mkRun_pollsMade (a : Except String Unit) (b c : Nat) :
    (MonitorRun.mk a b c).pollsMade = b := rfl

@[simp] theorem mkRun_sleepSeconds (a : Except String Unit) (b c : Nat) :
    (MonitorRun.mk a b c).sleepSeconds = c := rfl

/-- The polling loop of `_monitor_deployment` with `r` iterations of
`range(60)` left and `i` the next poll index.  `done` returns without
sleeping, `error` raises without sleeping or retrying, everything else
sleeps 2 s and retries; an exhausted range raises the timeout. -/
def monitorFrom (polls : Nat → Except String (List DeployEntry)) :
    Nat → Nat → MonitorRun
  | _, 0 => ⟨.error "Deployment timed out", 0, 0⟩
  | i, r + 1 =>
    match polls i with
    | .error e => ⟨.error e, 1, 0⟩
    | .ok [] =>
      let rest := monitorFrom polls (i + 1) r
      ⟨rest.result, rest.pollsMade + 1, rest.sleepSeconds + 2⟩
    | .ok (d :: _) =>
      if d.status = some "done" then ⟨.ok (), 1, 0⟩
      else if d.status = some "error" then
        ⟨.error (deployFailedMsg d.errorMessage), 1, 0⟩
      else
        let rest := monitorFrom polls (i + 1) r
        ⟨rest.result, rest.pollsMade + 1, rest.sleepSeconds + 2⟩

/-- `_monitor_deployment applicationId`: poll up to 60 times. -/
def monitorDeployment (polls : Nat → Except String (List DeployEntry)) :
    MonitorRun :=
  monitorFrom polls 0 60

/-- The i-th poll neither finishes nor fails: it succeeded and returned
an empty list, or a first entry whose status is neither "done" nor
"error". -/
def pollKeepsWaiting (polls : Nat → Except String (List DeployEntry))
    (j : Nat) : Bool :=
  match polls j with
  | .error _ => false
  | .ok [] => true
  | .ok (d :: _) => decide (¬ d.status = some "done" ∧ ¬ d.status = some "error")

theorem monitorFrom_le (polls : Nat → Except String (List DeployEntry)) :
    ∀ (r i : Nat), (monitorFrom polls i r).pollsMade ≤ r
      ∧ (monitorFrom polls i r).sleepSeconds ≤ 2 * r := by
  intro r
  induction r with
  | zero => intro i; exact ⟨Nat.le_refl 0, Nat.zero_le 0⟩
  | succ r ih =>
    intro i
    cases hp : polls i with
    | error e =>
      simp only [monitorFrom, hp, mkRun_pollsMade, mkRun_sleepSeconds]
      omega
    | ok l =>
      cases l with
      | nil =>
        simp only [monitorFrom, hp, mkRun_pollsMade, mkRun_sleepSeconds]
        have := ih (i + 1)
        omega
      | cons d ds =>
        simp only [monitorFrom, hp]
        split
        · simp only [mkRun_pollsMade, mkRun_sleepSeconds]; omega
        · split
          · simp only [mkRun_pollsMade, mkRun_sleepSeconds]; omega
          · simp only [mkRun_pollsMade, mkRun_sleepSeconds]
            have := ih (i + 1)
            omega

theorem monitorFrom_skip (polls : Nat → Except String (List DeployEntry)) :
    ∀ (k i r : Nat), (∀ j, j < k → pollKeepsWaiting polls (i + j) = true) →
      monitorFrom polls i (r + k)
        = ⟨(monitorFrom polls (i + k) r).result,
           (monitorFrom polls (i + k) r).pollsMade + k,
           (monitorFrom polls (i + k) r).sleepSeconds + 2 * k⟩ := by
  intro k
  induction k with
  | zero =>
    intro i r _
    rw [show r + 0 = r from rfl, show i + 0 = i from rfl]
    cases h : monitorFrom polls i r with
    | mk res pm sl =>
      simp only [mkRun_result, mkRun_pollsMade, mkRun_sleepSeconds,
        MonitorRun.mk.injEq]
      exact ⟨by trivial, by omega, by omega⟩
  | succ k ih =>
    intro i r hw
    have hw0 : pollKeepsWaiting polls i = true := by
      have := hw 0 (Nat.succ_pos k)
      simpa using this
    have hrec : monitorFrom polls (i + 1) (r + k)
        = ⟨(monitorFrom polls ((i + 1) + k) r).result,
           (monitorFrom polls ((i + 1) + k) r).pollsMade + k,
           (monitorFrom polls ((i + 1) + k) r).sleepSeconds + 2 * k⟩ := by
      refine ih (i + 1) r ?_
      intro j hj
      have := hw (j + 1) (by omega)
      rw [show i + (j + 1) = (i + 1) + j by omega] at this
      exact this
    have hik : (i + 1) + k = i + (k + 1) := by omega
    rw [hik] at hrec
    rw [pollKeepsWaiting] at hw0
    cases hp : polls i with
    | error e =>
      rw [hp] at hw0
      simp at hw0
    | ok l =>
      cases l with
      | nil =>
        rw [show r + (k + 1) = (r + k) + 1 from rfl]
        simp only [monitorFrom, hp, hrec]
        simp only [mkRun_result, mkRun_pollsMade, mkRun_sleepSeconds,
          MonitorRun.mk.injEq]
        exact ⟨by trivial, by omega, by omega⟩
      | cons d ds =>
        rw [hp] at hw0
        have hd := of_decide_eq_true hw0
        rw [show r + (k + 1) = (r + k) + 1 from rfl]
        simp only [monitorFrom, hp, if_neg hd.1, if_neg hd.2, hrec]
        simp only [mkRun_result, mkRun_pollsMade, mkRun_sleepSeconds,
          MonitorRun.mk.injEq]
        exact ⟨by trivial, by omega, by omega⟩

theorem monitorFrom_hit (polls : Nat → Except String (List DeployEntry))
    (i r : Nat) (d : DeployEntry) (ds : List DeployEntry)
    (hp : polls i = .ok (d :: ds)) :
    (d.status = some "done" → monitorFrom polls i (r + 1) = ⟨.ok (), 1, 0⟩)
    ∧ (d.status = some "error" →
        monitorFrom polls i (r + 1)
          = ⟨.error (deployFailedMsg d.errorMessage), 1, 0⟩) := by
  constructor
  · intro hd
    simp only [monitorFrom, hp, if_pos hd]
  · intro hd
    have hnd : ¬ d.status = some "done" := by rw [hd]; decide
    simp only [monitorFrom, hp, if_neg hnd, if_pos hd]

/-- **C6.** `_monitor_deployment` makes at most 60 polls and sleeps at
most 120 seconds in total (2-second interval); if the first `i` polls
keep it waiting and poll `i` (with `i < 60`) reports status "done" it
returns successfully right then — `i + 1` polls, `2·i` seconds slept —
and if poll `i` reports status "error" it raises `"Deployment failed:
…"` right then with no further retry; if all 60 polls keep it waiting
it raises `"Deployment timed out"` after exactly 60 polls and 120
seconds slept. -/
theorem c6_monitor_bounded_polling
    (polls : Nat → Except String (List DeployEntry)) :
    ((monitorDeployment polls).pollsMade ≤ 60
      ∧ (monitorDeployment polls).sleepSeconds ≤ 120)
    ∧ (∀ i, i < 60 → (∀ j, j < i → pollKeepsWaiting polls j = true) →
        ∀ d ds, polls i = .ok (d :: ds) →
          (d.status = some "done" →
            monitorDeployment polls = ⟨.ok (), i + 1, 2 * i⟩)
          ∧ (d.status = some "error" →
            monitorDeployment polls
              = ⟨.error (deployFailedMsg d.errorMessage), i + 1, 2 * i⟩))
    ∧ ((∀ j, j < 60 → pollKeepsWaiting polls j = true) →
        monitorDeployment polls = ⟨.error "Deployment timed out", 60, 120⟩) := by
  refine ⟨?_, ?_, ?_⟩
  · have := monitorFrom_le polls 60 0
    refine ⟨this.1, ?_⟩
    show (monitorFrom polls 0 60).sleepSeconds ≤ 120
    have h2 := this.2
    omega
  · intro i hi hwait d ds hp
    have hskip := monitorFrom_skip polls i 0 (60 - i)
      (by intro j hj; simpa using hwait j hj)
    rw [show (60 - i) + i = 60 from by omega] at hskip
    have h0i : 0 + i = i := by omega
    rw [h0i] at hskip
    have hsub : 60 - i = (60 - i - 1) + 1 := by omega
    rw [hsub] at hskip
    have hhit := monitorFrom_hit polls i (60 - i - 1) d ds hp
    constructor
    · intro hd
      rw [monitorDeployment, hskip, hhit.1 hd]
      simp only [mkRun_result, mkRun_pollsMade, mkRun_sleepSeconds,
        MonitorRun.mk.injEq]
      exact ⟨by trivial, by omega, by omega⟩
    · intro hd
      rw [monitorDeployment, hskip, hhit.2 hd]
      simp only [mkRun_result, mkRun_pollsMade, mkRun_sleepSeconds,
        MonitorRun.mk.injEq]
      exact ⟨by trivial, by omega, by omega⟩
  · intro hwait
    have hskip := monitorFrom_skip polls 60 0 0
      (by intro j hj; simpa using hwait j hj)
    rw [show (0 : Nat) + 60 = 60 from by omega] at hskip
    rw [monitorDeployment, hskip]
    rfl

/-!
## Remote executor (`DokployClient.execute_code`)

`execute_code` combines the session history with the new snippet,
draws `uuid.uuid4()` to build the application name, and runs the
create/resolve → upload → deploy → monitor → fetch-logs → parse
pipeline inside one big `try`.  Each platform interaction is an oracle
field of `DokployEnv`; `.error` carries the `str` of the exception the
call raised.  `createApp` and `saveBuildType` (both inside the inner
`try`) can raise `httpx.HTTPStatusError`, which the inner handler
inspects (`status_code == 400 or "already exists" in text.lower()`);
any other exception type propagates to the outer handler, which turns
the failure into the synthetic `success=False` dictionary with
`error = f"Dokploy execution error: {str(e)}\n{traceback.format_exc()}"`.
`traceback.format_exc()` is the opaque oracle string `tb`.  `uuid4` is
the `nonce` argument.  `_fetch_logs` catches all its exceptions
internally and returns the (possibly partial) collected text, so it is
total.  Local file writes (`result.txt`, `collected_logs.txt`) and the
in-memory ZIP bundling are modelled as infallible, and `asyncio.sleep`
calls are not modelled.
-/

/-- An exception from a call covered by the inner `try`:
`httpStatus code text msg` is an `httpx.HTTPStatusError` with
`e.response.status_code = code`, `e.response.text = text` and
`str(e) = msg`; `exn msg` is any other exception. -/
inductive CreateErr where
  | httpStatus (code : Nat) (text : String) (msg : String)
  | exn (msg : String)

/-- The JSON body returned by `application.create`:
`app_info["applicationId"]` and `app_info.get("appName")`. -/
structure AppInfo where
  applicationId : String
  appName : Option String

/-- One entry of the `application.all` listing: `a["name"]`,
`a["applicationId"]`, `a.get("appName")`. -/
structure AppListing where
  name : String
  applicationId : String
  appName : Option String

/-- One platform interaction, for reasoning about which calls a run
makes and with which arguments. -/
inductive DokployCall where
  | createApp (name : String)
  | saveBuildType (appId : String)
  | listApps
  | uploadCode (appId : String) (combined : String)
  | triggerDeploy (appId : String)
  | monitor (pollsMade : Nat)
  | getContainer (appId : String) (internalName : Option String)
  | fetchLogs (containerId : String)
deriving DecidableEq

/-- The oracle for everything `execute_code` observes from outside. -/
structure DokployEnv where
  createApp : String → Except CreateErr AppInfo
  saveBuildType : String → Except CreateErr Unit
  listApps : Unit → Except String (List AppListing)
  uploadCode : String → String → Except String Unit
  triggerDeploy : String → Except String Unit
  polls : Nat → Except String (List DeployEntry)
  getContainerId : String → Option String → Except String String
  fetchLogs : String → String
  tb : String

/-- Result of one `execute_code` call: the returned dictionary, the
session's code history afterwards, the `str` of the exception the outer
handler caught (`none` when no exception reached it), and the platform
calls made. -/
structure ExecRun where
  result : PyVal
  history : List String
  raised : Option String
  trace : List DokployCall

@[simp] theorem mkExec_result (a : PyVal) (b : List String) (c : Option String)
    (d : List DokployCall) : (ExecRun.mk a b c d).result = a := rfl

@[simp] theorem mkExec_history (a : PyVal) (b : List String) (c : Option String)
    (d : List DokployCall) : (ExecRun.mk a b c d).history = b := rfl

@[simp] theorem mkExec_raised (a : PyVal) (b : List String) (c : Option String)
    (d : List DokployCall) : (ExecRun.mk a b c d).raised = c := rfl

@[simp] theorem mkExec_trace (a : PyVal) (b : List String) (c : Option String)
    (d : List DokployCall) : (ExecRun.mk a b c d).trace = d := rfl

/-- `f"Dokploy execution error: {str(e)}\n{traceback.format_exc()}"`. -/
def dokployErrMsg (e tb : String) : String :=
  "Dokploy execution error: " ++ e ++ "\n" ++ tb

/-- The dictionary the outer `except` handler returns. -/
def dokployFailDict (errMsg : String) : PyVal :=
  .obj [("success", .bool false), ("output", .str ""),
    ("error", .str errMsg), ("plots", .arr []), ("tables", .arr [])]

/-- Python truthiness of the JSON values `_parse_logs` can produce. -/
def pyTruthy : PyVal → Bool
  | .none => false
  | .bool b => b
  | .str s => !(s == "")
  | .arr vs => !vs.isEmpty
  | .obj ps => !ps.isEmpty

/-- `result[k]` on a parsed JSON value: a dict lookup that raises
`KeyError` (whose `str` is the quoted key) on a missing key, and a
`TypeError`/`AttributeError`-style error on non-dict values (message
text as in CPython 3.11). -/
def pyGetItem : PyVal → String → Except String PyVal
  | .obj kvs, k =>
    match kvs.find? (fun p => p.1 == k) with
    | some p => .ok p.2
    | Option.none => .error ("\x27" ++ k ++ "\x27")
  | .arr _, _ => .error "list indices must be integers or slices, not \x27str\x27"
  | .str _, _ => .error "string indices must be integers, not \x27str\x27"
  | .bool _, _ => .error "\x27bool\x27 object is not subscriptable"
  | .none, _ => .error "\x27NoneType\x27 object is not subscriptable"

/-- `e.response.status_code == 400 or "already exists" in
e.response.text.lower()`. -/
def alreadyExistsHTTP (code : Nat) (text : String) : Bool :=
  code == 400 || containsSub "already exists".data text.toLower.data

/-- The `except httpx.HTTPStatusError` handler body: GET
`application.all` and scan for the first listing whose `name` equals
the wanted application name; keep the previously assigned
(`app_id`, `internal_app_name`) when no listing matches.  Exceptions
raised here propagate to the outer handler. -/
def resolveFallback (env : DokployEnv) (appName : String)
    (prior : Option String × Option String) (tr : List DokployCall) :
    Except String (Option String × Option String) × List DokployCall :=
  match env.listApps () with
  | .error m => (.error m, tr ++ [.listApps])
  | .ok apps =>
    match apps.find? (fun a => a.name == appName) with
    | some a => (.ok (some a.applicationId, a.appName), tr ++ [.listApps])
    | Option.none => (.ok prior, tr ++ [.listApps])

/-- Steps 3 of `execute_code`: create the application and set its build
type, falling back to the listing when an HTTP 400 / "already exists"
error signals the name is taken.  Returns the resolved
`(app_id, internal_app_name)` pair (`.error` = an exception headed for
the outer handler) and the calls made. -/
def resolveApp (env : DokployEnv) (appName : String) :
    Except String (Option String × Option String) × List DokployCall :=
  match env.createApp appName with
  | .ok info =>
    match env.saveBuildType info.applicationId with
    | .ok _ =>
      (.ok (some info.applicationId, info.appName),
        [.createApp appName, .saveBuildType info.applicationId])
    | .error (.exn m) =>
      (.error m, [.createApp appName, .saveBuildType info.applicationId])
    | .error (.httpStatus c t m) =>
      if alreadyExistsHTTP c t then
        resolveFallback env appName (some info.applicationId, info.appName)
          [.createApp appName, .saveBuildType info.applicationId]
      else (.error m, [.createApp appName, .saveBuildType info.applicationId])
  | .error (.exn m) => (.error m, [.createApp appName])
  | .error (.httpStatus c t m) =>
    if alreadyExistsHTTP c t then
      resolveFallback env appName (Option.none, Option.none) [.createApp appName]
    else (.error m, [.createApp appName])

/-- Steps 4–7 of `execute_code`, after the application is resolved:
upload the bundle, deploy, monitor, look up the container, fetch and
parse the logs, then append the snippet to the history exactly when
`result["success"]` is truthy.  Every `.error` from an oracle call is
an exception that the outer handler turns into the synthetic failure
dictionary, leaving the history untouched. -/
def executeResolved (env : DokployEnv) (history : List String)
    (code combined appId : String) (internal : Option String)
    (tr : List DokployCall) : ExecRun :=
  match env.uploadCode appId combined with
  | .error e =>
    ⟨dokployFailDict (dokployErrMsg e env.tb), history, some e,
      tr ++ [.uploadCode appId combined]⟩
  | .ok _ =>
    match env.triggerDeploy appId with
    | .error e =>
      ⟨dokployFailDict (dokployErrMsg e env.tb), history, some e,
        tr ++ [.uploadCode appId combined, .triggerDeploy appId]⟩
    | .ok _ =>
      match (monitorDeployment env.polls).result with
      | .error e =>
        ⟨dokployFailDict (dokployErrMsg e env.tb), history, some e,
          tr ++ [.uploadCode appId combined, .triggerDeploy appId,
            .monitor (monitorDeployment env.polls).pollsMade]⟩
      | .ok _ =>
        match env.getContainerId appId internal with
        | .error e =>
          ⟨dokployFailDict (dokployErrMsg e env.tb), history, some e,
            tr ++ [.uploadCode appId combined, .triggerDeploy appId,
              .monitor (monitorDeployment env.polls).pollsMade,
              .getContainer appId internal]⟩
        | .ok cid =>
          match pyGetItem (parseLogs (env.fetchLogs cid).data) "success" with
          | .error e =>
            ⟨dokployFailDict (dokployErrMsg e env.tb), history, some e,
              tr ++ [.uploadCode appId combined, .triggerDeploy appId,
                .monitor (monitorDeployment env.polls).pollsMade,
                .getContainer appId internal, .fetchLogs cid]⟩
          | .ok v =>
            if pyTruthy v then
              ⟨parseLogs (env.fetchLogs cid).data, history ++ [code],
                Option.none,
                tr ++ [.uploadCode appId combined, .triggerDeploy appId,
                  .monitor (monitorDeployment env.polls).pollsMade,
                  .getContainer appId internal, .fetchLogs cid]⟩
            else
              ⟨parseLogs (env.fetchLogs cid).data, history, Option.none,
                tr ++ [.uploadCode appId combined, .triggerDeploy appId,
                  .monitor (monitorDeployment env.polls).pollsMade,
                  .getContainer appId internal, .fetchLogs cid]⟩

/-- `DokployClient.execute_code(code)` for a session whose
`code_history` is `history`, with `nonce` the `uuid.uuid4()` draw of
this call.  `combined = "\n".join(self.code_history + [code])`;
`app_name = f"python-agent-{uuid_new}"`.  After resolution,
`if not app_id: raise Exception(f"Could not resolve application ID for
{app_name}")` fires on a `None` or empty id. -/
def executeCode (env : DokployEnv) (nonce : String) (history : List String)
    (code : String) : ExecRun :=
  let combined := String.intercalate "\n" (history ++ [code])
  let appName := "python-agent-" ++ nonce
  match resolveApp env appName with
  | (.error e, tr) =>
    ⟨dokployFailDict (dokployErrMsg e env.tb), history, some e, tr⟩
  | (.ok (Option.none, _), tr) =>
    ⟨dokployFailDict
        (dokployErrMsg ("Could not resolve application ID for " ++ appName)
          env.tb),
      history, some ("Could not resolve application ID for " ++ appName), tr⟩
  | (.ok (some appId, internal), tr) =>
    if appId == "" then
      ⟨dokployFailDict
          (dokployErrMsg ("Could not resolve application ID for " ++ appName)
            env.tb),
        history, some ("Could not resolve application ID for " ++ appName), tr⟩
    else executeResolved env history code combined appId internal tr

theorem executeResolved_spec (env : DokployEnv) (history : List String)
    (code combined appId : String) (internal : Option String)
    (tr : List DokployCall) :
    (∃ e, (executeResolved env history code combined appId internal tr).raised
          = some e
        ∧ (executeResolved env history code combined appId internal tr).result
          = dokployFailDict (dokployErrMsg e env.tb)
        ∧ (executeResolved env history code combined appId internal tr).history
          = history)
    ∨ ((executeResolved env history code combined appId internal tr).raised
          = Option.none
        ∧ ∃ v, pyGetItem
            (executeResolved env history code combined appId internal tr).result
            "success" = Except.ok v
          ∧ ((pyTruthy v = true
              ∧ (executeResolved env history code combined appId internal
                  tr).history = history ++ [code])
            ∨ (pyTruthy v = false
              ∧ (executeResolved env history code combined appId internal
                  tr).history = history))) := by
  cases h1 : env.uploadCode appId combined with
  | error e =>
    left
    exact ⟨e, by simp [executeResolved, h1], by simp [executeResolved, h1],
      by simp [executeResolved, h1]⟩
  | ok u1 =>
    cases h2 : env.triggerDeploy appId with
    | error e =>
      left
      exact ⟨e, by simp [executeResolved, h1, h2],
        by simp [executeResolved, h1, h2], by simp [executeResolved, h1, h2]⟩
    | ok u2 =>
      cases h3 : (monitorDeployment env.polls).result with
      | error e =>
        left
        exact ⟨e, by simp [executeResolved, h1, h2, h3],
          by simp [executeResolved, h1, h2, h3],
          by simp [executeResolved, h1, h2, h3]⟩
      | ok u3 =>
        cases h4 : env.getContainerId appId internal with
        | error e =>
          left
          exact ⟨e, by simp [executeResolved, h1, h2, h3, h4],
            by simp [executeResolved, h1, h2, h3, h4],
            by simp [executeResolved, h1, h2, h3, h4]⟩
        | ok cid =>
          cases h5 : pyGetItem (parseLogs (env.fetchLogs cid).data) "success"
            with
          | error e =>
            left
            exact ⟨e, by simp [executeResolved, h1, h2, h3, h4, h5],
              by simp [executeResolved, h1, h2, h3, h4, h5],
              by simp [executeResolved, h1, h2, h3, h4, h5]⟩
          | ok v =>
            right
            cases h6 : pyTruthy v with
            | true =>
              refine ⟨by simp [executeResolved, h1, h2, h3, h4, h5, h6],
                v, ?_, Or.inl ⟨h6, ?_⟩⟩
              · simp [executeResolved, h1, h2, h3, h4, h5, h6]
              · simp [executeResolved, h1, h2, h3, h4, h5, h6]
            | false =>
              refine ⟨by simp [executeResolved, h1, h2, h3, h4, h5, h6],
                v, ?_, Or.inr ⟨h6, ?_⟩⟩
              · simp [executeResolved, h1, h2, h3, h4, h5, h6]
              · simp [executeResolved, h1, h2, h3, h4, h5, h6]

theorem executeCode_spec (env : DokployEnv) (nonce : String)
    (history : List String) (code : String) :
    (∃ e, (executeCode env nonce history code).raised = some e
        ∧ (executeCode env nonce history code).result
          = dokployFailDict (dokployErrMsg e env.tb)
        ∧ (executeCode env nonce history code).history = history)
    ∨ ((executeCode env nonce history code).raised = Option.none
        ∧ ∃ v, pyGetItem (executeCode env nonce history code).result "success"
            = Except.ok v
          ∧ ((pyTruthy v = true
              ∧ (executeCode env nonce history code).history
                = history ++ [code])
            ∨ (pyTruthy v = false
              ∧ (executeCode env nonce history code).history = history))) := by
  rcases hr : resolveApp env ("python-agent-" ++ nonce) with ⟨res, tr⟩
  cases res with
  | error e =>
    left
    exact ⟨e, by simp [executeCode, hr], by simp [executeCode, hr],
      by simp [executeCode, hr]⟩
  | ok pr =>
    obtain ⟨appIdOpt, internal⟩ := pr
    cases appIdOpt with
    | none =>
      left
      exact ⟨"Could not resolve application ID for " ++ ("python-agent-" ++ nonce),
        by simp [executeCode, hr], by simp [executeCode, hr],
        by simp [executeCode, hr]⟩
    | some appId =>
      cases happ : appId == "" with
      | true =>
        left
        exact ⟨"Could not resolve application ID for " ++ ("python-agent-" ++ nonce),
          by simp [executeCode, hr, happ], by simp [executeCode, hr, happ],
          by simp [executeCode, hr, happ]⟩
      | false =>
        have hspec := executeResolved_spec env history code
          (String.intercalate "\n" (history ++ [code])) appId internal tr
        have heq : executeCode env nonce history code
            = executeResolved env history code
              (String.intercalate "\n" (history ++ [code])) appId internal tr := by
          simp [executeCode, hr, happ]
        rw [heq]
        exact hspec

/-!
## Local interpreter service (`sandbox_server.py`, `/execute`)

The handler snapshots the plot directory, `exec`s the user code in the
session context, then — only on success — diffs the plot directory and
scans the context for pandas DataFrames (rows ≤ 100, name not starting
with "_"; errors in this scan are swallowed by an inner handler).  The
`exec` call is the oracle `ExecOutcome`; `printed` is what the code
wrote to the redirected stdout, `plotsAfter` the plot-file names in the
session plot directory afterwards (set iteration order modelled as
list order), `ctxAfter` the session context items afterwards.  On an
exception the handler restores stdout and returns the failure
dictionary built from `f"{type(e).__name__}: {str(e)}\n{traceback.
format_exc()}"` with the still-empty `plots_saved`/`tables_found`
lists.  Directory creation and matplotlib setup are not modelled.
-/

/-- What the DataFrame scan reads off a pandas DataFrame:
`len(df)`, `df.to_markdown(index=True)`, `df.shape`. -/
structure DFInfo where
  rows : Nat
  markdown : String
  shape : Nat × Nat
deriving DecidableEq

/-- One item of the session execution context: its name, and its
DataFrame view when `isinstance(value, pd.DataFrame)`. -/
structure CtxVar where
  name : String
  df : Option DFInfo
deriving DecidableEq

/-- One entry of the `tables` list:
`{"name": …, "markdown": …, "shape": …}`. -/
structure TableRec where
  name : String
  markdown : String
  shape : Nat × Nat
deriving DecidableEq

/-- The `/execute` response dictionary. -/
structure SandboxResult where
  success : Bool
  output : String
  error : Option String
  plots : List String
  tables : List TableRec
deriving DecidableEq

/-- Oracle for `await asyncio.to_thread(exec, code, …)`: either the
code ran to completion, or it raised `exnType(exnMsg)` with traceback
text `tb` after printing `printed` and having already written the plot
files `plotsAfter`. -/
inductive ExecOutcome where
  | ok (printed : String) (plotsAfter : List String) (ctxAfter : List CtxVar)
  | raise (exnType exnMsg tb printed : String) (plotsAfter : List String)

/-- Python `str` of a 2-tuple of ints, as `df.shape` formats. -/
def fmtShape (p : Nat × Nat) : String :=
  "(" ++ toString p.1 ++ ", " ++ toString p.2 ++ ")"

/-- The DataFrame scan over the post-exec context. -/
def scanTables (ctxAfter : List CtxVar) : List TableRec :=
  ctxAfter.filterMap (fun v =>
    match v.df with
    | some d =>
      if v.name.startsWith "_" then Option.none
      else if d.rows ≤ 100 then some ⟨v.name, d.markdown, d.shape⟩
      else Option.none
    | Option.none => Option.none)

/-- `current_plots - initial_plots`, each joined to the session plot
directory as `str(session_plots_dir / plot_name)`. -/
def newPlotPaths (plotsDir : String) (plotsBefore plotsAfter : List String) :
    List String :=
  (plotsAfter.filter (fun n => !(plotsBefore.contains n))).map
    (fun n => plotsDir ++ "/" ++ n)

/-- The `/execute` handler from the `try` around `exec` onward.  On
success the captured output also contains the handler's own
"Plot saved"/"Detected DataFrame" prints, because stdout is still
redirected while they run and `output` is read afterwards. -/
def executeHandler (plotsDir : String) (plotsBefore : List String)
    (outcome : ExecOutcome) : SandboxResult :=
  match outcome with
  | .raise ty msg tb printed _ =>
    ⟨false, printed, some (ty ++ ": " ++ msg ++ "\n" ++ tb), [], []⟩
  | .ok printed plotsAfter ctxAfter =>
    let plotsSaved := newPlotPaths plotsDir plotsBefore plotsAfter
    let tables := scanTables ctxAfter
    ⟨true,
      printed
        ++ String.join (plotsSaved.map (fun p => "📊 Plot saved: " ++ p ++ "\n"))
        ++ String.join (tables.map (fun t =>
            "📋 Detected DataFrame \x27" ++ t.name ++ "\x27 (Shape: "
              ++ fmtShape t.shape ++ ")\n")),
      Option.none, plotsSaved, tables⟩

theorem dokployErrMsg_ne (e tb : String) : dokployErrMsg e tb ≠ "" := by
  intro h
  have h2 := congrArg String.length h
  rw [dokployErrMsg] at h2
  simp only [String.length_append] at h2
  rw [show ("Dokploy execution error: " : String).length = 25 from rfl,
    show ("\n" : String).length = 1 from rfl,
    show ("" : String).length = 0 from rfl] at h2
  omega

/-- **C3 (amended).** Every `execute_code` call either leaves the
session history unchanged or appends exactly the new snippet at the
end; and it appends if and only if no exception reached the outer
handler and the parsed result is a dict whose "success" entry is
truthy in the Python sense — not necessarily the boolean `true`, since
the check is `if result["success"]:`. -/
theorem c3_history_append_iff (env : DokployEnv) (nonce : String)
    (st : List String) (code : String) :
    ((executeCode env nonce st code).history = st
      ∨ (executeCode env nonce st code).history = st ++ [code])
    ∧ ((executeCode env nonce st code).history = st ++ [code]
      ↔ (executeCode env nonce st code).raised = Option.none
        ∧ ∃ v, pyGetItem (executeCode env nonce st code).result "success"
            = Except.ok v ∧ pyTruthy v = true) := by
  have hne : st ++ [code] ≠ st := by
    intro h
    have := congrArg List.length h
    simp at this
  rcases executeCode_spec env nonce st code with ⟨e, he, _, hh⟩ |
    ⟨hnone, v, hok, hcase⟩
  · refine ⟨Or.inl hh, ?_, ?_⟩
    · intro happ
      rw [hh] at happ
      exact absurd happ.symm hne
    · rintro ⟨hn, -⟩
      rw [he] at hn
      cases hn
  · rcases hcase with ⟨ht, hh⟩ | ⟨hf, hh⟩
    · exact ⟨Or.inr hh, fun _ => ⟨hnone, v, hok, ht⟩, fun _ => hh⟩
    · refine ⟨Or.inl hh, ?_, ?_⟩
      · intro happ
        rw [hh] at happ
        exact absurd happ.symm hne
      · rintro ⟨-, v2, hok2, ht2⟩
        rw [hok] at hok2
        rw [← Except.ok.inj hok2] at ht2
        rw [hf] at ht2
        exact absurd ht2 (by decide)

/-- An all-success platform oracle: creation succeeds, the deployment
is done on the first poll, and the container logs carry a
`success: true` result. -/
def dokEnvOk : DokployEnv :=
  { createApp := fun _ => .ok ⟨"app-1", some "int-app-1"⟩,
    saveBuildType := fun _ => .ok (),
    listApps := fun _ => .ok [],
    uploadCode := fun _ _ => .ok (),
    triggerDeploy := fun _ => .ok (),
    polls := fun _ => .ok [⟨some "done", Option.none⟩],
    getContainerId := fun _ _ => .ok "container-1",
    fetchLogs := fun _ =>
      "__DOKPLOY_RESULT_START__\n\x7b\"success\": true, \"output\": \"ok\"\x7d\n__DOKPLOY_RESULT_END__\n",
    tb := "Traceback (most recent call last):\n  sample frame\n" }

/-- Like `dokEnvOk`, but the entrypoint wrote a result whose "success"
value is the nonempty string "partial" — truthy, yet not `true`. -/
def dokEnvPartial : DokployEnv :=
  { dokEnvOk with fetchLogs := fun _ =>
      "__DOKPLOY_RESULT_START__\n\x7b\"success\": \"partial\"\x7d\n__DOKPLOY_RESULT_END__\n" }

set_option maxRecDepth 1000000 in
/-- Counterexample to C3 as stated: a parsed result whose "success"
value is the string "partial" — not equal to `true` — still gets the
snippet appended to the history, because the code tests truthiness,
not equality with `true`. -/
theorem c3_truthiness_counterexample :
    (executeCode dokEnvPartial "c3" [] "print(1)").history = ["print(1)"]
    ∧ (executeCode dokEnvPartial "c3" [] "print(1)").result
        = .obj [("success", .str "partial")]
    ∧ PyVal.str "partial" ≠ .bool true := by decide

/-- An oracle whose `application.create` call fails with a plain
connection error. -/
def dokEnvDown : DokployEnv :=
  { dokEnvOk with createApp := fun _ => .error (.exn "Connection refused") }

/-- **C5.** Every exception raised while talking to the platform inside
`execute_code` surfaces as the synthetic dictionary with
`success = False` and the nonempty `error` string built from the
exception — never as an exception to the caller; and every exception
raised by user code inside the `/execute` handler returns a structured
result with `success = False` and the error string built from the
exception type, message and traceback. -/
theorem c5_failures_become_data :
    (∀ (env : DokployEnv) (nonce : String) (st : List String) (code e : String),
        (executeCode env nonce st code).raised = some e →
        (executeCode env nonce st code).result
            = dokployFailDict (dokployErrMsg e env.tb)
          ∧ pyGetItem (executeCode env nonce st code).result "success"
            = Except.ok (.bool false)
          ∧ pyGetItem (executeCode env nonce st code).result "error"
            = Except.ok (.str (dokployErrMsg e env.tb))
          ∧ dokployErrMsg e env.tb ≠ "")
    ∧ (∀ (plotsDir : String) (plotsBefore : List String)
        (ty msg tb printed : String) (plotsAfter : List String),
        (executeHandler plotsDir plotsBefore
            (.raise ty msg tb printed plotsAfter)).success = false
        ∧ (executeHandler plotsDir plotsBefore
            (.raise ty msg tb printed plotsAfter)).error
          = some (ty ++ ": " ++ msg ++ "\n" ++ tb)) := by
  constructor
  · intro env nonce st code e he
    rcases executeCode_spec env nonce st code with ⟨e2, he2, hres, -⟩ |
      ⟨hnone, -⟩
    · rw [he] at he2
      cases he2
      refine ⟨hres, ?_, ?_, dokployErrMsg_ne e env.tb⟩
      · rw [hres]; rfl
      · rw [hres]; rfl
    · rw [he] at hnone
      cases hnone
  · intro plotsDir plotsBefore ty msg tb printed plotsAfter
    exact ⟨rfl, rfl⟩

set_option maxRecDepth 1000000 in
/-- Witness for C5 at concrete inputs: a failed `application.create`
surfaces as the failure dictionary, and a raising `/execute` request
returns `success = false` with the formatted error. -/
theorem c5_failures_become_data_witness :
    ((executeCode dokEnvDown "w5" [] "x = 1").result
        = dokployFailDict (dokployErrMsg "Connection refused" dokEnvDown.tb)
      ∧ pyGetItem (executeCode dokEnvDown "w5" [] "x = 1").result "success"
        = Except.ok (.bool false)
      ∧ pyGetItem (executeCode dokEnvDown "w5" [] "x = 1").result "error"
        = Except.ok (.str (dokployErrMsg "Connection refused" dokEnvDown.tb))
      ∧ dokployErrMsg "Connection refused" dokEnvDown.tb ≠ "")
    ∧ ((executeHandler "/plots" []
          (.raise "ValueError" "bad input" "tb text" "partial out"
            ["new.png"])).success = false
      ∧ (executeHandler "/plots" []
          (.raise "ValueError" "bad input" "tb text" "partial out"
            ["new.png"])).error
        = some ("ValueError" ++ ": " ++ "bad input" ++ "\n" ++ "tb text")) :=
  ⟨c5_failures_become_data.1 dokEnvDown "w5" [] "x = 1" "Connection refused"
      (by decide),
   c5_failures_become_data.2 "/plots" [] "ValueError" "bad input" "tb text"
      "partial out" ["new.png"]⟩

set_option maxRecDepth 1000000 in
/-- **C7 (code bug).** Two `execute_code` calls of the same session
(the second replaying the history produced by the first) create two
different applications: the name embeds a fresh `uuid.uuid4()` draw on
every call — despite the source comment "Deterministic for reuse" — so
the handle is never reused and `saveBuildType` runs again on the
second call. -/
theorem c7_fresh_application_per_call :
    (executeCode dokEnvOk "11111111-1111-1111-1111-111111111111" []
        "a = 1").trace.head?
      = some (.createApp "python-agent-11111111-1111-1111-1111-111111111111")
    ∧ (executeCode dokEnvOk "22222222-2222-2222-2222-222222222222"
        (executeCode dokEnvOk "11111111-1111-1111-1111-111111111111" []
          "a = 1").history "b = 2").trace.head?
      = some (.createApp "python-agent-22222222-2222-2222-2222-222222222222")
    ∧ ("python-agent-11111111-1111-1111-1111-111111111111" : String)
      ≠ "python-agent-22222222-2222-2222-2222-222222222222"
    ∧ DokployCall.saveBuildType "app-1"
      ∈ (executeCode dokEnvOk "22222222-2222-2222-2222-222222222222"
          (executeCode dokEnvOk "11111111-1111-1111-1111-111111111111" []
            "a = 1").history "b = 2").trace := by
  decide

/-- **C10.** A `/execute` request whose code raises returns exactly the
failure dictionary: `success = false`, the output captured so far, an
error string that is the exception type name, ": ", its message, a
newline and the traceback — and `plots` and `tables` both empty, no
matter which plot files the code wrote before failing
(`plotsAfter` is ignored), because directory diffing and DataFrame
scanning run only after a successful `exec`. -/
theorem c10_sandbox_exception_empty_artifacts (plotsDir : String)
    (plotsBefore : List String) (ty msg tb printed : String)
    (plotsAfter : List String) :
    executeHandler plotsDir plotsBefore (.raise ty msg tb printed plotsAfter)
      = ⟨false, printed, some (ty ++ ": " ++ msg ++ "\n" ++ tb), [], []⟩ := rfl

/-!
## Artifact collector (`finalize_analysis_node`)

The node walks the tool messages named "python_repl_tool", parses each
content with `ast.literal_eval` (already the `parsed` field of
`Msg.tool`), and for dict results appends plot artifacts (deduplicated
by `content` among plot-type artifacts) and table artifacts
(deduplicated by the id `f"table_{table.get('name')}"` among
table-type artifacts).  A `TypeError`/`KeyError` while materialising an
entry (non-string plot path inside `Path(...)`, non-dict table entry,
missing "markdown"/"name"/"shape" key) hits the per-message `except`,
keeping what was already appended and skipping the rest of that
message.  Artifact `description`/`timestamp` fields (wall-clock strings
that no control flow reads) are not modelled.  The final narrative is
the fresh summarization call's text unless an existing AI message
passes the reuse check; `freshSummary` is the oracle for the text the
cleanup branch produces (LLM response or its fallback). -/

/-- `msg.content` for the message classes used here (tool messages are
carried in parsed form, their raw content is not consulted by the
modelled paths). -/
def Msg.content : Msg → String
  | .system c => c
  | .human c => c
  | .ai c _ => c
  | .tool _ _ => ""

/-- An artifact record, keyed as the dedup logic keys it: plots by
their `content` (the path value), tables by their
`f"table_{...}"` id. -/
inductive Artifact where
  | plot (content : PyVal)
  | table (id : String) (content : PyVal)
  | insight (content : String)
deriving DecidableEq

/-- `a["content"] == plot_path` restricted to `a["type"] == "plot"`. -/
def isPlotWith (p : PyVal) : Artifact → Bool
  | .plot c => c == p
  | _ => false

/-- `a.get("id") == table_id` restricted to `a["type"] == "table"`. -/
def isTableWith (tid : String) : Artifact → Bool
  | .table i _ => i == tid
  | _ => false

/-- Dict lookup `kvs[k]` as an option (`.get`). -/
def lookupKV (kvs : List (String × PyVal)) (k : String) : Option PyVal :=
  (kvs.find? (fun p => p.1 == k)).map (fun p => p.2)

/-- Python `str()` of a table-name value: exact on the scalars that
occur; composite values are rendered via their JSON dump (the dedup
theorems do not depend on this rendering). -/
def pyStrOf : PyVal → String
  | .str s => s
  | .none => "None"
  | .bool true => "True"
  | .bool false => "False"
  | v => ⟨dumpVal v⟩

/-- Python iteration over the value of `result_dict["plots"]` /
`["tables"]`: lists yield their items, strings their characters, dicts
their keys; other values raise `TypeError` (→ per-message abort). -/
def iterPy : PyVal → Option (List PyVal)
  | .arr vs => some vs
  | .str s => some (s.data.map (fun c => .str ⟨[c]⟩))
  | .obj ps => some (ps.map (fun p => .str p.1))
  | _ => Option.none

/-- `isinstance(plot_path, str)` — `Path(plot_path)` raises otherwise. -/
def isStrPy : PyVal → Bool
  | .str _ => true
  | _ => false

/-- `f"table_{table.get('name')}"`. -/
def tableIdOf (kvs : List (String × PyVal)) : String :=
  "table_" ++ pyStrOf ((lookupKV kvs "name").getD .none)

/-- The keys the table append reads: `table["markdown"]` (stored) and
`table["name"]`, `table["shape"]` (used in the description f-string;
missing keys raise before the append). -/
def tableFields (kvs : List (String × PyVal)) : Option PyVal :=
  match lookupKV kvs "markdown", lookupKV kvs "name", lookupKV kvs "shape" with
  | some md, some _, some _ => some md
  | _, _, _ => Option.none

/-- The plots loop; the Bool is true when the loop aborted (exception →
the rest of this message is skipped). -/
def addPlots : List Artifact → List PyVal → List Artifact × Bool
  | arts, [] => (arts, false)
  | arts, p :: rest =>
    if arts.any (isPlotWith p) then addPlots arts rest
    else if isStrPy p then addPlots (arts ++ [.plot p]) rest
    else (arts, true)

/-- The tables loop; the Bool is true when the loop aborted. -/
def addTables : List Artifact → List PyVal → List Artifact × Bool
  | arts, [] => (arts, false)
  | arts, t :: rest =>
    match t with
    | .obj kvs =>
      if arts.any (isTableWith (tableIdOf kvs)) then addTables arts rest
      else
        match tableFields kvs with
        | some md => addTables (arts ++ [.table (tableIdOf kvs) md]) rest
        | Option.none => (arts, true)
    | _ => (arts, true)

/-- The `if result_dict.get("plots"):` section. -/
def collectPlots (arts : List Artifact) (kvs : List (String × PyVal)) :
    List Artifact × Bool :=
  if pyTruthy ((lookupKV kvs "plots").getD .none) then
    match iterPy ((lookupKV kvs "plots").getD .none) with
    | some items => addPlots arts items
    | Option.none => (arts, true)
  else (arts, false)

/-- The `if result_dict.get("tables"):` section. -/
def collectTables (arts : List Artifact) (kvs : List (String × PyVal)) :
    List Artifact :=
  if pyTruthy ((lookupKV kvs "tables").getD .none) then
    match iterPy ((lookupKV kvs "tables").getD .none) with
    | some items => (addTables arts items).1
    | Option.none => arts
  else arts

/-- Dispatch on the plots-section outcome: an abort (true) skips the
tables section of the same message. -/
def afterPlots (kvs : List (String × PyVal)) :
    List Artifact × Bool → List Artifact
  | (arts2, true) => arts2
  | (arts2, false) => collectTables arts2 kvs

/-- Processing of one message of the history: only tool messages named
"python_repl_tool" whose content literal-evaluates to a dict
contribute. -/
def collectFromMsg (arts : List Artifact) : Msg → List Artifact
  | .tool name parsed =>
    if name == "python_repl_tool" then
      match parsed with
      | some (.obj kvs) => afterPlots kvs (collectPlots arts kvs)
      | _ => arts
    else arts
  | _ => arts

/-- `needs_conversational_cleanup` after the reuse check: cleared only
when the last AI message is longer than 200 chars AND lacks the
`tool_calls` attribute. -/
def needsCleanup (msgs : List Msg) : Bool :=
  match (msgs.filter (fun m => m.isAI)).getLast? with
  | some m => !(decide (200 < m.content.length) && !m.hasToolCallsAttr)
  | Option.none => true

/-- `finalize_analysis_node`, restricted to the artifact list it builds
and to whether the summarization call ran: collect plot/table
artifacts from the tool messages, then append one insight artifact
holding the final narrative. -/
def finalizeAnalysisNode (msgs : List Msg) (freshSummary : String) :
    List Artifact × Bool :=
  let arts := msgs.foldl collectFromMsg []
  let cleanup := needsCleanup msgs
  let text := if cleanup then freshSummary
    else match (msgs.filter (fun m => m.isAI)).getLast? with
      | some m => m.content
      | Option.none => ""
  (arts ++ [.insight text], cleanup)

/-- The contents of the plot-type artifacts, in order. -/
def plotKeys (arts : List Artifact) : List PyVal :=
  arts.filterMap (fun a => match a with
    | .plot c => some c
    | _ => Option.none)

/-- The ids of the table-type artifacts, in order. -/
def tableKeys (arts : List Artifact) : List String :=
  arts.filterMap (fun a => match a with
    | .table i _ => some i
    | _ => Option.none)

/-- How many insight artifacts a list holds. -/
def insightCount (arts : List Artifact) : Nat :=
  (arts.filter (fun a => match a with
    | .insight _ => true
    | _ => false)).length

@[simp] theorem plotKeys_nil : plotKeys [] = [] := rfl

@[simp] theorem plotKeys_app (a b : List Artifact) :
    plotKeys (a ++ b) = plotKeys a ++ plotKeys b := by
  simp [plotKeys, List.filterMap_append]

@[simp] theorem plotKeys_plot (c : PyVal) : plotKeys [.plot c] = [c] := rfl

@[simp] theorem plotKeys_table (i : String) (m : PyVal) :
    plotKeys [.table i m] = [] := rfl

@[simp] theorem plotKeys_insight (t : String) : plotKeys [.insight t] = [] := rfl

@[simp] theorem tableKeys_nil : tableKeys [] = [] := rfl

@[simp] theorem tableKeys_app (a b : List Artifact) :
    tableKeys (a ++ b) = tableKeys a ++ tableKeys b := by
  simp [tableKeys, List.filterMap_append]

@[simp] theorem tableKeys_plot (c : PyVal) : tableKeys [.plot c] = [] := rfl

@[simp] theorem tableKeys_table (i : String) (m : PyVal) :
    tableKeys [.table i m] = [i] := rfl

@[simp] theorem tableKeys_insight (t : String) : tableKeys [.insight t] = [] :=
  rfl

@[simp] theorem insightCount_nil : insightCount [] = 0 := rfl

@[simp] theorem insightCount_app (a b : List Artifact) :
    insightCount (a ++ b) = insightCount a + insightCount b := by
  simp [insightCount, List.filter_append]

@[simp] theorem insightCount_plot (c : PyVal) : insightCount [.plot c] = 0 :=
  rfl

@[simp] theorem insightCount_table (i : String) (m : PyVal) :
    insightCount [.table i m] = 0 := rfl

@[simp] theorem insightCount_insight (t : String) :
    insightCount [.insight t] = 1 := rfl

theorem nodup_append_one {α : Type} (l : List α) (a : α) (h : l.Nodup)
    (hna : a ∉ l) : (l ++ [a]).Nodup :=
  List.Nodup.append h (List.nodup_singleton a)
    (fun x hx hx2 => by simp at hx2; subst hx2; exact hna hx)

theorem not_mem_plotKeys (p : PyVal) :
    ∀ arts : List Artifact, arts.any (isPlotWith p) = false →
      p ∉ plotKeys arts := by
  intro arts
  induction arts with
  | nil => intro _; simp
  | cons a rest ih =>
    intro hany hmem
    rw [List.any_cons] at hany
    have ha : isPlotWith p a = false := by
      cases h2 : isPlotWith p a
      · rfl
      · rw [h2] at hany; simp at hany
    have hr : rest.any (isPlotWith p) = false := by
      cases h2 : rest.any (isPlotWith p)
      · rfl
      · rw [h2] at hany; simp at hany
    cases a with
    | plot c =>
      have hk : plotKeys (Artifact.plot c :: rest) = c :: plotKeys rest := rfl
      rw [hk] at hmem
      rcases List.mem_cons.mp hmem with h1 | h1
      · have ha2 : (c == p) = false := ha
        subst h1
        simp at ha2
      · exact ih hr h1
    | table i m =>
      have hk : plotKeys (Artifact.table i m :: rest) = plotKeys rest := rfl
      rw [hk] at hmem
      exact ih hr hmem
    | insight t =>
      have hk : plotKeys (Artifact.insight t :: rest) = plotKeys rest := rfl
      rw [hk] at hmem
      exact ih hr hmem

theorem not_mem_tableKeys (tid : String) :
    ∀ arts : List Artifact, arts.any (isTableWith tid) = false →
      tid ∉ tableKeys arts := by
  intro arts
  induction arts with
  | nil => intro _; simp
  | cons a rest ih =>
    intro hany hmem
    rw [List.any_cons] at hany
    have ha : isTableWith tid a = false := by
      cases h2 : isTableWith tid a
      · rfl
      · rw [h2] at hany; simp at hany
    have hr : rest.any (isTableWith tid) = false := by
      cases h2 : rest.any (isTableWith tid)
      · rfl
      · rw [h2] at hany; simp at hany
    cases a with
    | plot c =>
      have hk : tableKeys (Artifact.plot c :: rest) = tableKeys rest := rfl
      rw [hk] at hmem
      exact ih hr hmem
    | table i m =>
      have hk : tableKeys (Artifact.table i m :: rest) = i :: tableKeys rest :=
        rfl
      rw [hk] at hmem
      rcases List.mem_cons.mp hmem with h1 | h1
      · have ha2 : (i == tid) = false := ha
        subst h1
        simp at ha2
      · exact ih hr h1
    | insight t =>
      have hk : tableKeys (Artifact.insight t :: rest) = tableKeys rest := rfl
      rw [hk] at hmem
      exact ih hr hmem

theorem addPlots_cons_dup (arts : List Artifact) (p : PyVal)
    (rest : List PyVal) (h : arts.any (isPlotWith p) = true) :
    addPlots arts (p :: rest) = addPlots arts rest := by
  simp only [addPlots, h]
  simp

theorem addPlots_cons_new (arts : List Artifact) (p : PyVal)
    (rest : List PyVal) (h1 : arts.any (isPlotWith p) = false)
    (h2 : isStrPy p = true) :
    addPlots arts (p :: rest) = addPlots (arts ++ [.plot p]) rest := by
  simp only [addPlots, h1, h2]
  simp

theorem addPlots_cons_abort (arts : List Artifact) (p : PyVal)
    (rest : List PyVal) (h1 : arts.any (isPlotWith p) = false)
    (h2 : isStrPy p = false) :
    addPlots arts (p :: rest) = (arts, true) := by
  simp only [addPlots, h1, h2]
  simp

theorem addTables_cons_dup (arts : List Artifact)
    (kvs : List (String × PyVal)) (rest : List PyVal)
    (h : arts.any (isTableWith (tableIdOf kvs)) = true) :
    addTables arts (.obj kvs :: rest) = addTables arts rest := by
  simp only [addTables, h]
  simp

theorem addTables_cons_new (arts : List Artifact)
    (kvs : List (String × PyVal)) (rest : List PyVal) (md : PyVal)
    (h1 : arts.any (isTableWith (tableIdOf kvs)) = false)
    (h2 : tableFields kvs = some md) :
    addTables arts (.obj kvs :: rest)
      = addTables (arts ++ [.table (tableIdOf kvs) md]) rest := by
  simp only [addTables, h1, h2]
  simp

theorem addTables_cons_abort (arts : List Artifact)
    (kvs : List (String × PyVal)) (rest : List PyVal)
    (h1 : arts.any (isTableWith (tableIdOf kvs)) = false)
    (h2 : tableFields kvs = Option.none) :
    addTables arts (.obj kvs :: rest) = (arts, true) := by
  simp only [addTables, h1, h2]
  simp

theorem addPlots_spec : ∀ (ps : List PyVal) (arts : List Artifact),
    (plotKeys arts).Nodup →
    (plotKeys (addPlots arts ps).1).Nodup
    ∧ tableKeys (addPlots arts ps).1 = tableKeys arts
    ∧ insightCount (addPlots arts ps).1 = insightCount arts := by
  intro ps
  induction ps with
  | nil => intro arts h; exact ⟨h, rfl, rfl⟩
  | cons p rest ih =>
    intro arts h
    by_cases hg : arts.any (isPlotWith p) = true
    · rw [addPlots_cons_dup arts p rest hg]
      exact ih arts h
    · have hg2 : arts.any (isPlotWith p) = false := by
        cases h2 : arts.any (isPlotWith p)
        · rfl
        · exact absurd h2 hg
      by_cases hs : isStrPy p = true
      · rw [addPlots_cons_new arts p rest hg2 hs]
        obtain ⟨n1, t1, i1⟩ := ih (arts ++ [.plot p]) (by
          rw [plotKeys_app, plotKeys_plot]
          exact nodup_append_one _ _ h (not_mem_plotKeys p arts hg2))
        refine ⟨n1, ?_, ?_⟩
        · rw [t1]; simp
        · rw [i1]; simp
      · have hs2 : isStrPy p = false := by
          cases h2 : isStrPy p
          · rfl
          · exact absurd h2 hs
        rw [addPlots_cons_abort arts p rest hg2 hs2]
        exact ⟨h, rfl, rfl⟩

theorem addTables_spec : ∀ (ts : List PyVal) (arts : List Artifact),
    (tableKeys arts).Nodup →
    (tableKeys (addTables arts ts).1).Nodup
    ∧ plotKeys (addTables arts ts).1 = plotKeys arts
    ∧ insightCount (addTables arts ts).1 = insightCount arts := by
  intro ts
  induction ts with
  | nil => intro arts h; exact ⟨h, rfl, rfl⟩
  | cons t rest ih =>
    intro arts h
    cases t with
    | obj kvs =>
      by_cases hg : arts.any (isTableWith (tableIdOf kvs)) = true
      · rw [addTables_cons_dup arts kvs rest hg]
        exact ih arts h
      · have hg2 : arts.any (isTableWith (tableIdOf kvs)) = false := by
          cases h2 : arts.any (isTableWith (tableIdOf kvs))
          · rfl
          · exact absurd h2 hg
        cases hf : tableFields kvs with
        | some md =>
          rw [addTables_cons_new arts kvs rest md hg2 hf]
          obtain ⟨n1, t1, i1⟩ := ih (arts ++ [.table (tableIdOf kvs) md]) (by
            rw [tableKeys_app, tableKeys_table]
            exact nodup_append_one _ _ h (not_mem_tableKeys _ arts hg2))
          refine ⟨n1, ?_, ?_⟩
          · rw [t1]; simp
          · rw [i1]; simp
        | none =>
          rw [addTables_cons_abort arts kvs rest hg2 hf]
          exact ⟨h, rfl, rfl⟩
    | none => exact ⟨h, rfl, rfl⟩
    | bool b => exact ⟨h, rfl, rfl⟩
    | str s => exact ⟨h, rfl, rfl⟩
    | arr vs => exact ⟨h, rfl, rfl⟩

theorem collectPlots_spec (kvs : List (String × PyVal))
    (arts : List Artifact) (h : (plotKeys arts).Nodup) :
    (plotKeys (collectPlots arts kvs).1).Nodup
    ∧ tableKeys (collectPlots arts kvs).1 = tableKeys arts
    ∧ insightCount (collectPlots arts kvs).1 = insightCount arts := by
  rw [collectPlots]
  split
  · split
    · exact addPlots_spec _ arts h
    · exact ⟨h, rfl, rfl⟩
  · exact ⟨h, rfl, rfl⟩

theorem collectTables_spec (kvs : List (String × PyVal))
    (arts : List Artifact) (h : (tableKeys arts).Nodup) :
    (tableKeys (collectTables arts kvs)).Nodup
    ∧ plotKeys (collectTables arts kvs) = plotKeys arts
    ∧ insightCount (collectTables arts kvs) = insightCount arts := by
  rw [collectTables]
  split
  · split
    · exact addTables_spec _ arts h
    · exact ⟨h, rfl, rfl⟩
  · exact ⟨h, rfl, rfl⟩

theorem collectFromMsg_spec (m : Msg) (arts : List Artifact)
    (hp : (plotKeys arts).Nodup) (ht : (tableKeys arts).Nodup) :
    (plotKeys (collectFromMsg arts m)).Nodup
    ∧ (tableKeys (collectFromMsg arts m)).Nodup
    ∧ insightCount (collectFromMsg arts m) = insightCount arts := by
  cases m with
  | system c => exact ⟨hp, ht, rfl⟩
  | human c => exact ⟨hp, ht, rfl⟩
  | ai c tcs => exact ⟨hp, ht, rfl⟩
  | tool name parsed =>
    by_cases hn : (name == "python_repl_tool") = true
    · simp only [collectFromMsg]
      rw [if_pos hn]
      cases parsed with
      | none => exact ⟨hp, ht, rfl⟩
      | some v =>
        cases v with
        | obj kvs =>
          rcases hcp : collectPlots arts kvs with ⟨arts2, fl⟩
          obtain ⟨p1, p2, p3⟩ := collectPlots_spec kvs arts hp
          rw [hcp] at p1 p2 p3
          have p1b : (plotKeys arts2).Nodup := p1
          have p2b : tableKeys arts2 = tableKeys arts := p2
          have p3b : insightCount arts2 = insightCount arts := p3
          show (plotKeys (afterPlots kvs (collectPlots arts kvs))).Nodup
            ∧ (tableKeys (afterPlots kvs (collectPlots arts kvs))).Nodup
            ∧ insightCount (afterPlots kvs (collectPlots arts kvs))
              = insightCount arts
          rw [hcp]
          cases fl with
          | true =>
            rw [show afterPlots kvs (arts2, true) = arts2 from rfl]
            exact ⟨p1b, by rw [p2b]; exact ht, p3b⟩
          | false =>
            rw [show afterPlots kvs (arts2, false) = collectTables arts2 kvs
              from rfl]
            obtain ⟨q1, q2, q3⟩ := collectTables_spec kvs arts2
              (by rw [p2b]; exact ht)
            exact ⟨by rw [q2]; exact p1b, q1, by rw [q3]; exact p3b⟩
        | none => exact ⟨hp, ht, rfl⟩
        | bool b => exact ⟨hp, ht, rfl⟩
        | str s => exact ⟨hp, ht, rfl⟩
        | arr vs => exact ⟨hp, ht, rfl⟩
    · simp only [collectFromMsg]
      rw [if_neg hn]
      exact ⟨hp, ht, rfl⟩

theorem collect_inv : ∀ (msgs : List Msg) (arts : List Artifact),
    (plotKeys arts).Nodup → (tableKeys arts).Nodup →
    (plotKeys (msgs.foldl collectFromMsg arts)).Nodup
    ∧ (tableKeys (msgs.foldl collectFromMsg arts)).Nodup
    ∧ insightCount (msgs.foldl collectFromMsg arts) = insightCount arts := by
  intro msgs
  induction msgs with
  | nil => intro arts hp ht; exact ⟨hp, ht, rfl⟩
  | cons m rest ih =>
    intro arts hp ht
    obtain ⟨h1, h2, h3⟩ := collectFromMsg_spec m arts hp ht
    obtain ⟨g1, g2, g3⟩ := ih (collectFromMsg arts m) h1 h2
    exact ⟨g1, g2, g3.trans h3⟩

theorem needsCleanup_true (msgs : List Msg) : needsCleanup msgs = true := by
  rw [needsCleanup]
  cases hl : (msgs.filter (fun m => m.isAI)).getLast? with
  | none => rfl
  | some m =>
    have hmem := List.mem_of_mem_getLast? hl
    have hai : m.isAI = true := (List.mem_filter.mp hmem).2
    have hattr : m.hasToolCallsAttr = true := by
      cases m with
      | ai c tcs => rfl
      | system c => simp [Msg.isAI] at hai
      | human c => simp [Msg.isAI] at hai
      | tool n p => simp [Msg.isAI] at hai
    simp [hattr]

/-- **C9 (code bug).** For every message history, the finalize node's
artifact list has pairwise-distinct plot contents (file paths) and
pairwise-distinct table ids — however many tool messages repeat them —
and ends with exactly one insight artifact, appended after all plot
and table artifacts.  But its narrative is always the fresh
summarization call's text: the reuse check `len(last_ai_content) > 200
and not hasattr(ai_messages[-1], "tool_calls")` can never pass, because
`tool_calls` is a declared field of every langchain `AIMessage` (and
`llm_client.py` always sets it), so `needs_conversational_cleanup` is
never cleared and the dedicated summarization call runs even when a
long freeform response exists. -/
theorem c9_artifact_dedup_and_dead_reuse (msgs : List Msg) (fresh : String) :
    (plotKeys (finalizeAnalysisNode msgs fresh).1).Nodup
    ∧ (tableKeys (finalizeAnalysisNode msgs fresh).1).Nodup
    ∧ insightCount (finalizeAnalysisNode msgs fresh).1 = 1
    ∧ (finalizeAnalysisNode msgs fresh).1.getLast? = some (.insight fresh)
    ∧ (finalizeAnalysisNode msgs fresh).2 = true := by
  have hnode : finalizeAnalysisNode msgs fresh
      = (msgs.foldl collectFromMsg [] ++ [Artifact.insight fresh], true) := by
    simp [finalizeAnalysisNode, needsCleanup_true]
  obtain ⟨h1, h2, h3⟩ := collect_inv msgs [] (by simp) (by simp)
  refine ⟨?_, ?_, ?_, ?_, ?_⟩ <;> rw [hnode]
  · simpa using h1
  · simpa using h2
  · have h3b : insightCount (msgs.foldl collectFromMsg []) = 0 := by
      simpa using h3
    simp [h3b]
  · exact List.getLast?_concat _

/-- A deployment that is absent on the first poll, building on the
second, and done on the third. -/
def c6polls : Nat → Except String (List DeployEntry)
  | 0 => .ok []
  | 1 => .ok [⟨some "running", Option.none⟩]
  | _ => .ok [⟨some "done", Option.none⟩]

/-- Witness for C6 at a concrete poll oracle: the monitor returns
success after the third poll, having slept 4 seconds, within the
60-poll bound. -/
theorem c6_monitor_bounded_polling_witness :
    ((monitorDeployment c6polls).pollsMade ≤ 60
      ∧ (monitorDeployment c6polls).sleepSeconds ≤ 120)
    ∧ monitorDeployment c6polls = ⟨.ok (), 2 + 1, 2 * 2⟩ :=
  ⟨(c6_monitor_bounded_polling c6polls).1,
   ((c6_monitor_bounded_polling c6polls).2.1 2 (by decide)
      (by decide) ⟨some "done", Option.none⟩ [] rfl).1 rfl⟩

end ExcelAgent
